import Mathlib

/-!
Verification of the catalog / lifecycle manager of the quantum-crypto
technology-watch repository (`src/utils/file_manager/file_manager.py`).

The Python class `FileManager` keeps a JSON index (`data/index.json`)
describing data snapshots, analysis artifacts and podcasts, over a fixed
directory tree.  We embed the index document, an abstract filesystem, and
each catalog operation as executable Lean functions, mirroring the Python
line by line, and prove the stated properties about them.

Modelling conventions:
* `base_path` is fixed to the empty string, so every path the manager
  manipulates is the path relative to the repository root (in Python,
  `os.path.join("", p) = p`), and the paths stored in the index coincide
  with the paths handed to the filesystem.
* Python strings are Lean `String`s; `str.split` / `str.replace` /
  `str.startswith` / `str.endswith` / `in` are implemented below on the
  character lists, with the same semantics for the inputs that occur.
* `datetime` values are records of numeric fields (`Timestamp`); the
  `strftime` formats used by the code (`%Y%m%d_%H%M%S`, `%Y-%m-%d`,
  `%H:%M:%S`) are implemented digit by digit, and `datetime.strptime`
  validation is modelled by `parseDate8` / `parseTime6` (slightly more
  lenient on day-of-month than CPython, which also checks the day against
  the month; indistinguishable on strings produced by `strftime`).
* JSON content files are modelled by a `Content` valuation on paths:
  `absent` (no file), `invalid` (present but `open`/`json.load` raises),
  or `items data` (parses to a list of collected items).
-/

namespace FM

/-! ## Python string primitives -/

/-- Python `str.split(sep)` for a one-character separator, on `List Char`.
`splitOnCharAux c l` never returns `[]`. -/
def splitOnCharAux (c : Char) : List Char → List (List Char)
  | [] => [[]]
  | x :: xs =>
    match splitOnCharAux c xs with
    | r :: rs => if x = c then [] :: r :: rs else (x :: r) :: rs
    | [] => [[]]

/-- Python `str.split(sep)` for a one-character separator. -/
def splitOnChar (c : Char) (s : String) : List String :=
  (splitOnCharAux c s.data).map String.mk

/-- Python `str.replace(pat, "")`: removes every (leftmost,
non-overlapping) occurrence of `pat`.  The `fuel` argument only makes the
recursion structural; every step consumes at least one character, so
`fuel = l.length` (as `stripAll` passes) never runs out on a nonempty
list. -/
def stripAllGo (pat : List Char) : Nat → List Char → List Char
  | _, [] => []
  | 0, l => l
  | fuel + 1, x :: xs =>
    if pat.isPrefixOf (x :: xs) = true ∧ pat.length ≠ 0 then
      stripAllGo pat fuel (xs.drop (pat.length - 1))
    else
      x :: stripAllGo pat fuel xs

/-- Python `str.replace(pat, "")` on `String`. -/
def stripAll (pat s : String) : String :=
  String.mk (stripAllGo pat.data s.data.length s.data)

/-- Whether `pat` occurs as a contiguous run inside `l`. -/
def listInfix (pat : List Char) : List Char → Bool
  | [] => pat.isEmpty
  | x :: xs => pat.isPrefixOf (x :: xs) || listInfix pat xs

/-- Python `str.startswith`. -/
def strStartsWith (s pre : String) : Bool := pre.data.isPrefixOf s.data

/-- Python `str.endswith`. -/
def strEndsWith (s post : String) : Bool := post.data.reverse.isPrefixOf s.data.reverse

/-- Python `sub in s` (substring containment). -/
def strContains (s sub : String) : Bool := listInfix sub.data s.data

/-- `os.path.basename`: the part after the last `/`. -/
def basename (p : String) : String :=
  (splitOnChar '/' p).getLastD ""

/-- Lexicographic comparison of code-point lists (Python `str <`). -/
def charListLt : List Char → List Char → Bool
  | [], [] => false
  | [], _ :: _ => true
  | _ :: _, [] => false
  | x :: xs, y :: ys =>
    if x.toNat < y.toNat then true
    else if y.toNat < x.toNat then false
    else charListLt xs ys

/-- Python `a < b` on strings: lexicographic by code point. -/
def pyStrLt (a b : String) : Bool := charListLt a.data b.data

theorem strData_append (s t : String) : (s ++ t).data = s.data ++ t.data := by
  cases s; cases t; rfl

theorem strMk_data (s : String) : String.mk s.data = s := by
  cases s; rfl

theorem strExt {s t : String} (h : s.data = t.data) : s = t := by
  have h2 := congrArg String.mk h
  rwa [strMk_data, strMk_data] at h2

/-! ## Timestamps and the strftime / strptime formats used by the code -/

/-- A `datetime.datetime` value (only the fields the code formats). -/
structure Timestamp where
  year : Nat
  month : Nat
  day : Nat
  hour : Nat
  minute : Nat
  second : Nat
deriving Repr, DecidableEq

/-- The field ranges every real `datetime` satisfies (Python refuses to
construct a `datetime` outside them; day-of-month is checked only against
1..31 here, see the module comment). -/
def Timestamp.valid (t : Timestamp) : Bool :=
  1 ≤ t.year && t.year ≤ 9999 && 1 ≤ t.month && t.month ≤ 12 &&
  1 ≤ t.day && t.day ≤ 31 && t.hour ≤ 23 && t.minute ≤ 59 && t.second ≤ 59

/-- Two zero-padded decimal digits (`%m`, `%d`, `%H`, `%M`, `%S`). -/
def two (n : Nat) : String :=
  String.mk [Nat.digitChar (n / 10 % 10), Nat.digitChar (n % 10)]

/-- Four zero-padded decimal digits (`%Y` for the years `datetime.now()`
produces). -/
def four (n : Nat) : String :=
  String.mk [Nat.digitChar (n / 1000 % 10), Nat.digitChar (n / 100 % 10),
             Nat.digitChar (n / 10 % 10), Nat.digitChar (n % 10)]

/-- The date half of the snapshot id (`%Y%m%d`). -/
def dateStr8 (t : Timestamp) : String := four t.year ++ two t.month ++ two t.day

/-- The time half of the snapshot id (`%H%M%S`). -/
def timeStr6 (t : Timestamp) : String := two t.hour ++ two t.minute ++ two t.second

/-- `timestamp.strftime("%Y%m%d_%H%M%S")`, the snapshot id. -/
def fmtId (t : Timestamp) : String := dateStr8 t ++ "_" ++ timeStr6 t

/-- `timestamp.strftime("%Y-%m-%d")`. -/
def fmtDate (t : Timestamp) : String :=
  four t.year ++ "-" ++ two t.month ++ "-" ++ two t.day

/-- `timestamp.strftime("%H:%M:%S")`. -/
def fmtTime (t : Timestamp) : String :=
  two t.hour ++ ":" ++ two t.minute ++ ":" ++ two t.second

/-- `datetime.now().isoformat()` (to second precision; sufficient since no
claim inspects `last_updated`). -/
def isoNow (t : Timestamp) : String := fmtDate t ++ "T" ++ fmtTime t

/-- `datetime.strptime(s, "%Y%m%d").strftime("%Y-%m-%d")`, returning `none`
when `strptime` raises `ValueError`. -/
def parseDate8 (s : String) : Option String :=
  match s.data with
  | [y1, y2, y3, y4, m1, m2, d1, d2] =>
    if y1.isDigit && y2.isDigit && y3.isDigit && y4.isDigit &&
       m1.isDigit && m2.isDigit && d1.isDigit && d2.isDigit then
      let m := 10 * (m1.toNat - 48) + (m2.toNat - 48)
      let d := 10 * (d1.toNat - 48) + (d2.toNat - 48)
      if 1 ≤ m && m ≤ 12 && 1 ≤ d && d ≤ 31 then
        some (String.mk [y1, y2, y3, y4, '-', m1, m2, '-', d1, d2])
      else none
    else none
  | _ => none

/-- `datetime.strptime(s, "%H%M%S").strftime("%H:%M:%S")`, returning `none`
when `strptime` raises `ValueError`. -/
def parseTime6 (s : String) : Option String :=
  match s.data with
  | [h1, h2, m1, m2, s1, s2] =>
    if h1.isDigit && h2.isDigit && m1.isDigit && m2.isDigit &&
       s1.isDigit && s2.isDigit then
      let h := 10 * (h1.toNat - 48) + (h2.toNat - 48)
      let m := 10 * (m1.toNat - 48) + (m2.toNat - 48)
      let sec := 10 * (s1.toNat - 48) + (s2.toNat - 48)
      if h ≤ 23 && m ≤ 59 && sec ≤ 59 then
        some (String.mk [h1, h2, ':', m1, m2, ':', s1, s2])
      else none
    else none
  | _ => none

/-! ## The index document (`data/index.json`, §3 of the spec) -/

/-- One collected content item, as stored in a snapshot's JSON file.
Python reads the fields with `item.get(k, "")` / `item.get(k)`; a missing
key behaves exactly like a value that matches nothing, so the fields are
total strings here. -/
structure Item where
  type : String
  source : String
  title : String
  summary : String
deriving Repr, DecidableEq

/-- The `stats` block of a snapshot entry. -/
structure Stats where
  total_items : Nat
  scientific_articles : Nat
  news_articles : Nat
  unique_sources : Nat
deriving Repr, DecidableEq

/-- The `file_paths` block of a snapshot entry. -/
structure FilePaths where
  csv : String
  json : String
deriving Repr, DecidableEq

/-- One element of a snapshot entry's `analysis_results` list. -/
structure AnalysisResult where
  type : String
  date : String
  file_path : String
deriving Repr, DecidableEq

/-- One element of the index's `data_files` list. `status` is the Python
string, `"current"` or `"archived"`. -/
structure DataFileEntry where
  id : String
  date : String
  time : String
  file_paths : FilePaths
  stats : Stats
  status : String
  analysis_results : List AnalysisResult
deriving Repr, DecidableEq

/-- One element of the index's `podcasts` list. -/
structure PodcastEntry where
  type : String
  date : String
  script_path : Option String
  audio_path : String
deriving Repr, DecidableEq

/-- The `analysis_metrics` block of the index. -/
structure AnalysisMetrics where
  last_daily_digest : Option String
  last_weekly_summary : Option String
  last_monthly_report : Option String
deriving Repr, DecidableEq

/-- The whole index document. -/
structure Index where
  last_updated : String
  data_files : List DataFileEntry
  analysis_metrics : AnalysisMetrics
  podcasts : List PodcastEntry
deriving Repr, DecidableEq

/-- `FileManager._create_new_index`. -/
def createNewIndex (now : Timestamp) : Index :=
  { last_updated := isoNow now
    data_files := []
    analysis_metrics := { last_daily_digest := none, last_weekly_summary := none,
                          last_monthly_report := none }
    podcasts := [] }

/-! ## The abstract filesystem -/

/-- What reading a content file at some path yields. -/
inductive Content where
  | absent
  | invalid
  | items (data : List Item)
deriving Repr, DecidableEq

/-- The directory tree the manager works in.  Each `…Dir` field is the
listing (file names) of one of the fixed directories created by
`_ensure_directory_structure`; `content` is the result of opening and
JSON-parsing the file at a (repository-relative) path; `savedIndex`
records the last document written to `data/index.json` by `_save_index`
(`none` before the first save). -/
structure FS where
  currentDir : List String
  archivesDir : List String
  dailyDir : List String
  weeklyDir : List String
  monthlyDir : List String
  podWeeklyDir : List String
  podMonthlyDir : List String
  content : String → Content
  savedIndex : Option Index

/-- Path of a file in `data/current`. -/
def currentPath (name : String) : String := "data/current/" ++ name

/-- Path of a file in `data/archives`. -/
def archivesPath (name : String) : String := "data/archives/" ++ name

/-- Path of a file in `podcasts/{weekly,monthly}`. -/
def podPath (folder name : String) : String := "podcasts/" ++ folder ++ "/" ++ name

/-- Every path at which a file the manager can `os.path.exists`-test
lives (analysis artifact paths are never existence-tested by the code). -/
def FS.allPaths (fs : FS) : List String :=
  fs.currentDir.map currentPath ++ fs.archivesDir.map archivesPath ++
  fs.podWeeklyDir.map (podPath "weekly") ++ fs.podMonthlyDir.map (podPath "monthly")

/-- `os.path.exists` on a repository-relative path. -/
def FS.pathExists (fs : FS) (p : String) : Bool := fs.allPaths.contains p

/-- Add a name to a directory listing (a directory holds at most one file
of a given name). -/
def insertName (n : String) (l : List String) : List String :=
  if l.contains n then l else l ++ [n]

/-- Point-update of the content valuation. -/
def FS.setContent (fs : FS) (p : String) (c : Content) : FS :=
  { fs with content := fun q => if q = p then c else fs.content q }

/-- Remove the file at path `p` (only the two data directories are ever
move sources in `archive_old_data`). -/
def FS.removePath (fs : FS) (p : String) : FS :=
  { fs with currentDir := fs.currentDir.filter (fun n => currentPath n ≠ p),
            archivesDir := fs.archivesDir.filter (fun n => archivesPath n ≠ p) }

/-- `shutil.move(src, data/archives/filename)`: the file disappears from
its source path and (re)appears in the archives directory, carrying its
content; an existing destination is overwritten (POSIX `rename`), and
`src = dst` is a successful no-op. -/
def FS.moveToArchives (fs : FS) (src filename : String) : FS :=
  let c := fs.content src
  let fs1 := fs.removePath src
  let fs2 := { fs1 with archivesDir := insertName filename fs1.archivesDir }
  (fs2.setContent src Content.absent).setContent (archivesPath filename) c

/-- The whole mutable state of a `FileManager`: the in-memory index and
the filesystem. -/
structure State where
  index : Index
  fs : FS

/-- `FileManager._save_index`: stamps `last_updated` and rewrites
`data/index.json`. -/
def saveIndex (now : Timestamp) (st : State) : State :=
  let idx := { st.index with last_updated := isoNow now }
  { index := idx, fs := { st.fs with savedIndex := some idx } }

/-! ## Index Store: load (`_load_index`) -/

/-- What is on disk at `data/index.json` when a `FileManager` starts. -/
inductive StoredIndex where
  | absent
  | corrupt
  | parsed (doc : Index)
deriving DecidableEq

/-- `FileManager._load_index` with the stored file as input; the second
component is the stored file after the call (the method never writes, so
it is returned unchanged: a corrupt file is left on disk untouched). -/
def loadIndex (stored : StoredIndex) (now : Timestamp) : Index × StoredIndex :=
  match stored with
  | .absent => (createNewIndex now, .absent)
  | .corrupt => (createNewIndex now, .corrupt)
  | .parsed doc => (doc, .parsed doc)

/-! ## Catalog operations -/

/-- The filename stem shared by every snapshot content file. -/
def snapStem : String := "quantum_crypto_data_"

/-- The CSV content filename of a snapshot id. -/
def csvNameOf (i : String) : String := snapStem ++ i ++ ".csv"

/-- The JSON content filename of a snapshot id. -/
def jsonNameOf (i : String) : String := snapStem ++ i ++ ".json"

/-- The stats block computed in `save_collected_data` (and identically in
`rebuild_index`). -/
def computeStats (data : List Item) : Stats :=
  { total_items := data.length
    scientific_articles := (data.filter (fun i => i.type == "research")).length
    news_articles := (data.filter (fun i => i.type == "news")).length
    unique_sources := ((data.map (fun i => i.source)).dedup).length }

/-- The index entry `save_collected_data` appends. -/
def mkSnapshotEntry (data : List Item) (ts : Timestamp) : DataFileEntry :=
  { id := fmtId ts
    date := fmtDate ts
    time := fmtTime ts
    file_paths := { csv := currentPath (csvNameOf (fmtId ts)),
                    json := currentPath (jsonNameOf (fmtId ts)) }
    stats := computeStats data
    status := "current"
    analysis_results := [] }

/-- The demotion loop of `save_collected_data`: a `"current"` entry
becomes `"archived"`, anything else is untouched. -/
def demote (e : DataFileEntry) : DataFileEntry :=
  if e.status == "current" then { e with status := "archived" } else e

/-- `FileManager.save_collected_data` (spec: `registerSnapshot`): writes
the CSV/JSON content files under `data/current`, demotes every previously
current entry, appends the new entry, saves the index.  Returns the new
state and the two file paths the Python function returns. -/
def saveCollectedData (data : List Item) (ts now : Timestamp) (st : State) :
    State × String × String :=
  let csvName := csvNameOf (fmtId ts)
  let jsonName := jsonNameOf (fmtId ts)
  let fs := { st.fs with currentDir := insertName jsonName (insertName csvName st.fs.currentDir) }
  let fs := fs.setContent (currentPath csvName) Content.invalid
  let fs := fs.setContent (currentPath jsonName) (Content.items data)
  let entry := mkSnapshotEntry data ts
  let idx := { st.index with data_files := (st.index.data_files.map demote) ++ [entry] }
  (saveIndex now { index := idx, fs := fs }, currentPath csvName, currentPath jsonName)

/-- Replace the first element satisfying `p` by its image under `f`;
`none` when no element satisfies `p`.  This is the Python
`for …: if …: mutate; break` / `else:` pattern. -/
def updateFirst (p : α → Bool) (f : α → α) : List α → Option (List α)
  | [] => none
  | x :: xs => if p x then some (f x :: xs) else (updateFirst p f xs).map (x :: ·)

/-- The inner loop of `register_analysis_result`: overwrite the path of
the first `(type, date)` match in place, else append a new result. -/
def upsertAnalysis (atype adate fpath : String) (l : List AnalysisResult) :
    List AnalysisResult :=
  match updateFirst (fun a => a.type == atype && a.date == adate)
      (fun a => { a with file_path := fpath }) l with
  | some l2 => l2
  | none => l ++ [{ type := atype, date := adate, file_path := fpath }]

/-- The mutation `register_analysis_result` applies to the entry it
found. -/
def attachAnalysis (analysis_type date file_path : String) (e : DataFileEntry) :
    DataFileEntry :=
  { e with analysis_results := upsertAnalysis analysis_type date file_path e.analysis_results }

/-- `FileManager.register_analysis_result` (spec:
`registerAnalysisResult`).  `date?` is the optional `date` argument after
Python's normalisation to a `%Y-%m-%d` string; `none` means it defaults to
today.  Returns the success flag and the new state. -/
def registerAnalysisResult (data_id analysis_type file_path : String)
    (date? : Option String) (now : Timestamp) (st : State) : Bool × State :=
  let date := date?.getD (fmtDate now)
  match updateFirst (fun e => e.id == data_id)
      (attachAnalysis analysis_type date file_path)
      st.index.data_files with
  | none => (false, st)
  | some dfs =>
    let m := st.index.analysis_metrics
    let m :=
      if analysis_type == "daily_digest" then { m with last_daily_digest := some date }
      else if analysis_type == "weekly_summary" then { m with last_weekly_summary := some date }
      else if analysis_type == "monthly_report" then { m with last_monthly_report := some date }
      else m
    (true, saveIndex now
      { index := { st.index with data_files := dfs, analysis_metrics := m }, fs := st.fs })

/-- `FileManager.register_podcast` (spec: `registerPodcast`). -/
def registerPodcast (podcast_type script_path audio_path : String)
    (date? : Option String) (now : Timestamp) (st : State) : Bool × State :=
  let date := date?.getD (fmtDate now)
  (true, saveIndex now
    { index := { st.index with podcasts := st.index.podcasts ++
                  [{ type := podcast_type, date := date,
                     script_path := some script_path, audio_path := audio_path }] }
      fs := st.fs })

/-- The two keys of the `file_paths` dict. -/
inductive FType where
  | csv
  | json
deriving Repr, DecidableEq

/-- `entry["file_paths"][file_type]`. -/
def FilePaths.get (fp : FilePaths) : FType → String
  | .csv => fp.csv
  | .json => fp.json

/-- `FileManager.get_latest_data_file` (spec: `latestSnapshotPath`). -/
def getLatestDataFile (ft : FType) (idx : Index) : Option String :=
  if idx.data_files = [] then none
  else
    match idx.data_files.reverse.find? (fun e => e.status == "current") with
    | some e => some (e.file_paths.get ft)
    | none => idx.data_files.getLast?.map (fun e => e.file_paths.get ft)

/-! ## Archival policy (`archive_old_data`) -/

/-- One `file_type` iteration of the inner loop of `archive_old_data`:
given the running `(filesystem, count)` and the recorded path, performs
the move when the source exists, and returns the recorded path for the
index (rewritten only when a move happened). -/
def archiveFile (acc : FS × Nat) (recorded : String) : (FS × Nat) × String :=
  if acc.1.pathExists recorded then
    let filename := basename recorded
    ((acc.1.moveToArchives recorded filename, acc.2 + 1), archivesPath filename)
  else (acc, recorded)

/-- One `data_files` iteration of `archive_old_data` (the entry is
processed when its status is `"archived"` and its date is strictly below
the threshold string; the dict iterates csv before json, in insertion
order). -/
def archiveEntry (thresholdStr : String) (acc : List DataFileEntry × FS × Nat)
    (e : DataFileEntry) : List DataFileEntry × FS × Nat :=
  if e.status == "archived" && pyStrLt e.date thresholdStr then
    let r1 := archiveFile (acc.2.1, acc.2.2) e.file_paths.csv
    let r2 := archiveFile r1.1 e.file_paths.json
    (acc.1 ++ [{ e with file_paths := { csv := r1.2, json := r2.2 } }], r2.1.1, r2.1.2)
  else (acc.1 ++ [e], acc.2.1, acc.2.2)

/-- `FileManager.archive_old_data` (spec: `archive`).  `thresholdStr` is
`(datetime.now() - timedelta(days=days_threshold)).strftime("%Y-%m-%d")`;
the calendar subtraction itself is outside the model.  Returns the new
state and the archived-file count the Python function returns. -/
def archiveOldData (thresholdStr : String) (now : Timestamp) (st : State) : State × Nat :=
  let r := st.index.data_files.foldl (archiveEntry thresholdStr) ([], st.fs, 0)
  let st2 : State := { index := { st.index with data_files := r.1 }, fs := r.2.1 }
  if r.2.2 > 0 then (saveIndex now st2, r.2.2) else (st2, r.2.2)

/-! ## Keyword search (`search_by_keyword`) -/

/-- One element of the result list of `search_by_keyword`; `matched` is
the JSON key `"matches"` (a Lean keyword). -/
structure SearchResult where
  file_id : String
  date : String
  matched : List Item
deriving Repr, DecidableEq

/-- Python `str.lower()` (ASCII case mapping, which is all the data
uses). -/
def toLowerStr (s : String) : String := String.mk (s.data.map Char.toLower)

/-- The per-item test of `search_by_keyword` (`kw` is already
lower-cased by the caller). -/
def itemMatches (kw : String) (i : Item) : Bool :=
  strContains (toLowerStr i.title) kw || strContains (toLowerStr i.summary) kw

/-- The per-snapshot body of `search_by_keyword`: skip when the JSON file
does not exist; skip (with a logged error) when opening or parsing it
raises; otherwise collect the matching items and report them when there
is at least one. -/
def searchSnapshot (kw : String) (fs : FS) (e : DataFileEntry) : Option SearchResult :=
  if fs.pathExists e.file_paths.json then
    match fs.content e.file_paths.json with
    | Content.items data =>
      let ms := data.filter (itemMatches kw)
      if ms.isEmpty then none else some { file_id := e.id, date := e.date, matched := ms }
    | _ => none
  else none

/-- The loop body of `search_by_keyword`: append the snapshot's result
when there is one. -/
def searchStep (kw : String) (fs : FS) (results : List SearchResult) (e : DataFileEntry) :
    List SearchResult :=
  match searchSnapshot kw fs e with
  | some r => results ++ [r]
  | none => results

/-- `FileManager.search_by_keyword` (spec: `searchByKeyword`). -/
def searchByKeyword (keyword : String) (idx : Index) (fs : FS) : List SearchResult :=
  idx.data_files.foldl (searchStep (toLowerStr keyword) fs) []

/-! ## Reconciler (`rebuild_index`) -/

/-- The id/date/time extraction shared by steps 1 and 2 of
`rebuild_index`:
`file_id = filename.replace("quantum_crypto_data_", "").split(".")[0]`,
then `strptime` on `file_id.split("_")[0]` and `file_id.split("_")[1]`;
any raised `ValueError`/`IndexError` is caught and the file skipped
(`none`). -/
def parseSnapName (filename : String) : Option (String × String × String) :=
  let fid := (splitOnChar '.' (stripAll snapStem filename)).headD ""
  let parts := splitOnChar '_' fid
  match parts[1]? with
  | none => none
  | some p1 =>
    match parseDate8 (parts.headD ""), parseTime6 p1 with
    | some d, some t => some (fid, d, t)
    | _, _ => none

/-- The guard of steps 1 and 2 of `rebuild_index`. -/
def snapGuard (filename : String) : Bool :=
  strStartsWith filename snapStem &&
    (strEndsWith filename ".json" || strEndsWith filename ".csv")

/-- The id `rebuild_index` recovers from a directory entry, `none` when
the file is not recognized or its name fails to parse. -/
def recognizedId (filename : String) : Option String :=
  if snapGuard filename then (parseSnapName filename).map (fun x => x.1) else none

/-- All-zero stats, used by `rebuild_index` when no JSON twin is
readable. -/
def zeroStats : Stats :=
  { total_items := 0, scientific_articles := 0, news_articles := 0, unique_sources := 0 }

/-- Step 1 of `rebuild_index`, one file of `data/current`: parse the
name, skip ids already present, recompute stats from the JSON twin when
it exists (a raising `open`/`json.load` skips the whole file), and append
a `"current"` entry. -/
def rebuildCurrentFile (fs : FS) (acc : List DataFileEntry) (filename : String) :
    List DataFileEntry :=
  if snapGuard filename then
    match parseSnapName filename with
    | none => acc
    | some (fid, fdate, ftime) =>
      if acc.any (fun e => e.id == fid) then acc
      else
        let statsRes : Option Stats :=
          if fs.pathExists (currentPath (jsonNameOf fid)) then
            match fs.content (currentPath (jsonNameOf fid)) with
            | Content.items data => some (computeStats data)
            | _ => none
          else some zeroStats
        match statsRes with
        | none => acc
        | some stats =>
          acc ++ [{ id := fid, date := fdate, time := ftime,
                    file_paths := { csv := currentPath (csvNameOf fid),
                                    json := currentPath (jsonNameOf fid) },
                    stats := stats, status := "current", analysis_results := [] }]
  else acc

/-- The entry mutation of step 2 of `rebuild_index`: mark the entry
archived and re-point the path matching the scanned file's extension. -/
def archReassign (filename : String) (e : DataFileEntry) : DataFileEntry :=
  let e2 := { e with status := "archived" }
  if strEndsWith filename ".csv" then
    { e2 with file_paths := { e2.file_paths with csv := archivesPath filename } }
  else if strEndsWith filename ".json" then
    { e2 with file_paths := { e2.file_paths with json := archivesPath filename } }
  else e2

/-- Step 2 of `rebuild_index`, one file of `data/archives`: an entry with
the same id is re-pointed at the archives and marked `"archived"`;
otherwise a fresh `"archived"` entry with zero stats is appended. -/
def rebuildArchiveFile (acc : List DataFileEntry) (filename : String) :
    List DataFileEntry :=
  if snapGuard filename then
    match parseSnapName filename with
    | none => acc
    | some (fid, fdate, ftime) =>
      match updateFirst (fun e => e.id == fid) (archReassign filename) acc with
      | some acc2 => acc2
      | none =>
        acc ++ [{ id := fid, date := fdate, time := ftime,
                  file_paths := { csv := archivesPath (csvNameOf fid),
                                  json := archivesPath (jsonNameOf fid) },
                  stats := zeroStats, status := "archived", analysis_results := [] }]
  else acc

/-- The entry mutation of step 3 of `rebuild_index`: append one analysis
result. -/
def attachAnalysisEntry (analysis_type date_str fpath : String) (e : DataFileEntry) :
    DataFileEntry :=
  { e with analysis_results := e.analysis_results ++
      [{ type := analysis_type, date := date_str, file_path := fpath }] }

/-- `max(entries, key=lambda x: x["id"])`: the first entry of maximal id
(Python `max` replaces the running maximum only on a strictly greater
key). -/
def maxByIdEntry : List DataFileEntry → Option DataFileEntry
  | [] => none
  | e :: es => some (es.foldl (fun best x => if best.id < x.id then x else best) e)

/-- Step 3 of `rebuild_index`, one file of an analysis directory: update
the matching `analysis_metrics` field and attach an analysis result to
the entry of greatest id (the documented approximation), when any entry
exists. -/
def rebuildAnalysisFile (folder : String) (acc : List DataFileEntry × AnalysisMetrics)
    (filename : String) : List DataFileEntry × AnalysisMetrics :=
  if strStartsWith filename "daily_digest_" || strStartsWith filename "weekly_summary_" ||
     strStartsWith filename "monthly_report_" then
    let date_str := (splitOnChar '.' ((splitOnChar '_' filename).getLastD "")).headD ""
    let tm :=
      if strStartsWith filename "daily_digest_" then
        ("daily_digest", { acc.2 with last_daily_digest := some date_str })
      else if strStartsWith filename "weekly_summary_" then
        ("weekly_summary", { acc.2 with last_weekly_summary := some date_str })
      else
        ("monthly_report", { acc.2 with last_monthly_report := some date_str })
    match maxByIdEntry acc.1 with
    | none => (acc.1, tm.2)
    | some latest =>
      (((updateFirst (fun e => e.id == latest.id)
          (attachAnalysisEntry tm.1 date_str
            ("analysis_results/" ++ folder ++ "/" ++ filename))
          acc.1).getD acc.1), tm.2)
  else acc

/-- Step 4 of `rebuild_index`, one file of a podcast directory. -/
def rebuildPodcastFile (folder : String) (fs : FS) (acc : List PodcastEntry)
    (filename : String) : List PodcastEntry :=
  if strEndsWith filename ".mp3" &&
     (strStartsWith filename "QuantumCrypto_Weekly_" ||
      strStartsWith filename "QuantumCrypto_Monthly_") then
    let date_str := (splitOnChar '.' ((splitOnChar '_' filename).getLastD "")).headD ""
    let ptype := if strContains filename "Weekly" then "weekly" else "monthly"
    let scriptName := "podcast_script_" ++ date_str ++ ".txt"
    acc ++ [{ type := ptype, date := date_str,
              script_path :=
                if fs.pathExists (podPath folder scriptName) then some (podPath folder scriptName)
                else none,
              audio_path := podPath folder filename }]
  else acc

/-- `FileManager.rebuild_index` (spec: `rebuild`): discards the in-memory
index and rebuilds it from the directory listings, then saves.  Returns
the new state and the `True` the Python function returns.  (The analysis
and podcast directories always exist: `__init__` creates them.) -/
def rebuildIndex (now : Timestamp) (st : State) : State × Bool :=
  let fs := st.fs
  let entries1 := fs.currentDir.foldl (rebuildCurrentFile fs) []
  let entries2 := fs.archivesDir.foldl rebuildArchiveFile entries1
  let m0 : AnalysisMetrics := { last_daily_digest := none, last_weekly_summary := none,
                                last_monthly_report := none }
  let r3 := fs.dailyDir.foldl (rebuildAnalysisFile "daily") (entries2, m0)
  let r4 := fs.weeklyDir.foldl (rebuildAnalysisFile "weekly") r3
  let r5 := fs.monthlyDir.foldl (rebuildAnalysisFile "monthly") r4
  let pods1 := fs.podWeeklyDir.foldl (rebuildPodcastFile "weekly" fs) []
  let pods2 := fs.podMonthlyDir.foldl (rebuildPodcastFile "monthly" fs) pods1
  let idx : Index := { last_updated := isoNow now, data_files := r5.1,
                       analysis_metrics := r5.2, podcasts := pods2 }
  (saveIndex now { index := idx, fs := fs }, true)

/-! ## Operation sequences -/

/-- The catalog operations a running pipeline performs ("normal
operations"): the three registrations and threshold archival, plus the
external producers dropping artifact files into the analysis and podcast
directories (those writes go through the collaborating components, not
through `FileManager`, but they are part of how a real tree is
produced). -/
inductive Op where
  | snap (data : List Item) (ts : Timestamp) (now : Timestamp)
  | analysis (data_id analysis_type file_path : String) (date? : Option String) (now : Timestamp)
  | podcast (podcast_type script_path audio_path : String) (date? : Option String) (now : Timestamp)
  | archiveOp (thresholdStr : String) (now : Timestamp)
  | extAnalysisFile (folder : String) (name : String)
  | extPodcastFile (weekly : Bool) (name : String)

/-- Well-formedness of one operation: a registration timestamp is a value
a real `datetime` can take (Python cannot construct one otherwise). -/
def Op.wf : Op → Bool
  | .snap _ ts _ => ts.valid
  | _ => true

/-- Drop an external analysis artifact file into `analysis_results/<folder>`. -/
def extAnalysisWrite (folder name : String) (fs : FS) : FS :=
  if folder == "daily" then { fs with dailyDir := insertName name fs.dailyDir }
  else if folder == "weekly" then { fs with weeklyDir := insertName name fs.weeklyDir }
  else { fs with monthlyDir := insertName name fs.monthlyDir }

/-- Drop an external podcast file into `podcasts/{weekly,monthly}`. -/
def extPodcastWrite (weekly : Bool) (name : String) (fs : FS) : FS :=
  if weekly then { fs with podWeeklyDir := insertName name fs.podWeeklyDir }
  else { fs with podMonthlyDir := insertName name fs.podMonthlyDir }

/-- Apply one operation to the state. -/
def applyOp (st : State) : Op → State
  | .snap data ts now => (saveCollectedData data ts now st).1
  | .analysis i t f d now => (registerAnalysisResult i t f d now st).2
  | .podcast p s a d now => (registerPodcast p s a d now st).2
  | .archiveOp th now => (archiveOldData th now st).1
  | .extAnalysisFile folder name => { st with fs := extAnalysisWrite folder name st.fs }
  | .extPodcastFile w name => { st with fs := extPodcastWrite w name st.fs }

/-- Run a sequence of operations. -/
def runOps (ops : List Op) (st : State) : State := ops.foldl applyOp st

/-- The empty directory tree. -/
def emptyFS : FS :=
  { currentDir := [], archivesDir := [], dailyDir := [], weeklyDir := [], monthlyDir := [],
    podWeeklyDir := [], podMonthlyDir := [], content := fun _ => Content.absent,
    savedIndex := none }

/-- A fresh `FileManager` over an empty tree: the empty document. -/
def initState (now : Timestamp) : State :=
  { index := createNewIndex now, fs := emptyFS }

/-- The ids of the snapshots recorded in an index. -/
def indexIds (idx : Index) : List String := idx.data_files.map (fun e => e.id)

/-- The number of `"current"` entries of an index. -/
def countCurrent (idx : Index) : Nat :=
  (idx.data_files.filter (fun e => e.status == "current")).length

/-! ## General lemmas about the loop combinators -/

theorem updateFirst_eq_none {p : α → Bool} {f : α → α} {l : List α}
    (h : ∀ x ∈ l, p x = false) : updateFirst p f l = none := by
  induction l with
  | nil => rfl
  | cons x xs ih =>
    have hx := h x (by simp)
    simp [updateFirst, hx, ih (fun y hy => h y (by simp [hy]))]

theorem updateFirst_append_first {p : α → Bool} {f : α → α} {l₁ : List α} {x : α}
    {l₂ : List α} (h₁ : ∀ y ∈ l₁, p y = false) (hx : p x = true) :
    updateFirst p f (l₁ ++ x :: l₂) = some (l₁ ++ f x :: l₂) := by
  induction l₁ with
  | nil => simp [updateFirst, hx]
  | cons y ys ih =>
    have hy := h₁ y (by simp)
    simp [updateFirst, hy, ih (fun z hz => h₁ z (by simp [hz]))]

theorem updateFirst_some_decomp {p : α → Bool} {f : α → α} {l l2 : List α}
    (h : updateFirst p f l = some l2) :
    ∃ l₁ x l₃, l = l₁ ++ x :: l₃ ∧ p x = true ∧ (∀ y ∈ l₁, p y = false) ∧
      l2 = l₁ ++ f x :: l₃ := by
  induction l generalizing l2 with
  | nil => simp [updateFirst] at h
  | cons x xs ih =>
    by_cases hx : p x = true
    · refine ⟨[], x, xs, by simp, hx, by simp, ?_⟩
      simp [updateFirst, hx] at h
      simp [h.symm]
    · simp only [Bool.not_eq_true] at hx
      have h2 : (updateFirst p f xs).map (x :: ·) = some l2 := by
        simpa [updateFirst, hx] using h
      obtain ⟨l2a, h3, rfl⟩ := Option.map_eq_some'.mp h2
      obtain ⟨l₁, y, l₃, rfl, hy, hnone, rfl⟩ := ih h3
      exact ⟨x :: l₁, y, l₃, by simp, hy, by simpa [hx] using hnone, by simp⟩

theorem updateFirst_isSome_iff {p : α → Bool} {f : α → α} {l : List α} :
    (updateFirst p f l).isSome = true ↔ ∃ x ∈ l, p x = true := by
  induction l with
  | nil => simp [updateFirst]
  | cons x xs ih =>
    by_cases hx : p x = true
    · simp [updateFirst, hx]
    · simp only [Bool.not_eq_true] at hx
      simp [updateFirst, hx, ih]

theorem updateFirst_map {p : α → Bool} {f : α → α} {g : α → β} {l l2 : List α}
    (hg : ∀ x, g (f x) = g x) (h : updateFirst p f l = some l2) :
    l2.map g = l.map g := by
  obtain ⟨l₁, x, l₃, rfl, _, _, rfl⟩ := updateFirst_some_decomp h
  simp [hg]

theorem find?_eq_head_filter (p : α → Bool) (l : List α) :
    l.find? p = (l.filter p).head? := by
  induction l with
  | nil => rfl
  | cons x xs ih =>
    by_cases hx : p x = true
    · simp [List.find?_cons_of_pos _ hx, List.filter_cons, hx]
    · simp only [Bool.not_eq_true] at hx
      rw [List.find?_cons_of_neg _ (by simp [hx]), List.filter_cons, if_neg (by simp [hx])]
      exact ih

theorem foldl_searchStep (kw : String) (fs : FS) (l : List DataFileEntry)
    (acc : List SearchResult) :
    l.foldl (searchStep kw fs) acc = acc ++ l.filterMap (searchSnapshot kw fs) := by
  induction l generalizing acc with
  | nil => simp
  | cons x xs ih =>
    cases hfx : searchSnapshot kw fs x with
    | none => simpa [List.foldl_cons, searchStep, hfx, List.filterMap_cons] using ih acc
    | some b => simp [List.foldl_cons, searchStep, hfx, List.filterMap_cons, ih]

/-! ## C3: registerSnapshot leaves exactly the new entry current -/

theorem demote_status_ne (e : DataFileEntry) : (demote e).status ≠ "current" ∨ e.status ≠ "current" := by
  unfold demote
  by_cases h : e.status == "current"
  · simp [h]
  · right
    simpa using h

theorem filter_current_map_demote (l : List DataFileEntry) :
    (l.map demote).filter (fun e => e.status == "current") = [] := by
  induction l with
  | nil => rfl
  | cons x xs ih =>
    simp only [List.map_cons, List.filter_cons]
    by_cases h : x.status == "current"
    · simpa [demote, h] using ih
    · simpa [demote, h] using ih

theorem saveCollectedData_filter_current (data : List Item) (ts now : Timestamp) (st : State) :
    ((saveCollectedData data ts now st).1.index.data_files.filter
      (fun e => e.status == "current")) = [mkSnapshotEntry data ts] := by
  show (((st.index.data_files.map demote) ++ [mkSnapshotEntry data ts]).filter
      (fun e => e.status == "current")) = [mkSnapshotEntry data ts]
  rw [List.filter_append, filter_current_map_demote]
  simp [mkSnapshotEntry]

/-- C3: for every sequence of `registerSnapshot` calls (in fact after a
`registerSnapshot` from an arbitrary prior state, which covers every such
sequence), exactly one snapshot entry has `status = "current"` immediately
after the call, and it is the entry registered by that call. -/
theorem registerSnapshot_unique_current (data : List Item) (ts now : Timestamp) (st : State) :
    ((saveCollectedData data ts now st).1.index.data_files.filter
        (fun e => e.status == "current")) = [mkSnapshotEntry data ts] ∧
      countCurrent (saveCollectedData data ts now st).1.index = 1 := by
  refine ⟨saveCollectedData_filter_current data ts now st, ?_⟩
  unfold countCurrent
  rw [saveCollectedData_filter_current data ts now st]
  rfl

/-! ## C5: loading an absent or unparsable index file -/

/-- C5: `load()` on an index file that exists but fails to parse returns a
fresh empty document (no snapshots, no podcasts, all three analysis
metrics absent) without raising, and leaves the on-disk file exactly as it
was; `load()` on an absent file returns the same fresh empty document. -/
theorem loadIndex_corrupt_and_absent (now : Timestamp) :
    (loadIndex StoredIndex.corrupt now).1 = createNewIndex now ∧
      (loadIndex StoredIndex.corrupt now).2 = StoredIndex.corrupt ∧
      (loadIndex StoredIndex.absent now).1 = createNewIndex now ∧
      (loadIndex StoredIndex.absent now).2 = StoredIndex.absent ∧
      (createNewIndex now).data_files = [] ∧
      (createNewIndex now).podcasts = [] ∧
      (createNewIndex now).analysis_metrics.last_daily_digest = none ∧
      (createNewIndex now).analysis_metrics.last_weekly_summary = none ∧
      (createNewIndex now).analysis_metrics.last_monthly_report = none := by
  exact ⟨rfl, rfl, rfl, rfl, rfl, rfl, rfl, rfl, rfl⟩

/-! ## C8: registering an analysis result against a missing snapshot id -/

/-- C8: when no entry carries the requested snapshot id,
`register_analysis_result` returns `False` and the whole state — index
document (entries, metrics) and filesystem (including the saved index
file, i.e. no save happens) — is exactly unchanged. -/
theorem registerAnalysisResult_missing_id (data_id analysis_type file_path : String)
    (date? : Option String) (now : Timestamp) (st : State)
    (h : ∀ e ∈ st.index.data_files, e.id ≠ data_id) :
    registerAnalysisResult data_id analysis_type file_path date? now st = (false, st) := by
  simp only [registerAnalysisResult]
  rw [updateFirst_eq_none (fun e he => by simpa using h e he)]

/-! ## C4 / C10: registering analysis results against an existing snapshot -/

theorem registerAnalysisResult_found_aux
    {l₁ : List DataFileEntry} {e : DataFileEntry} {l₂ : List DataFileEntry}
    {sid kind fp date : String} {now : Timestamp} {st : State}
    (hdf : st.index.data_files = l₁ ++ e :: l₂)
    (hfirst : ∀ y ∈ l₁, y.id ≠ sid) (hid : e.id = sid) :
    (registerAnalysisResult sid kind fp (some date) now st).1 = true ∧
    (registerAnalysisResult sid kind fp (some date) now st).2.index.data_files =
      l₁ ++ { e with analysis_results := upsertAnalysis kind date fp e.analysis_results } :: l₂ := by
  have hupd : updateFirst (fun x => x.id == sid)
      (attachAnalysis kind date fp)
      st.index.data_files =
      some (l₁ ++ attachAnalysis kind date fp e :: l₂) := by
    rw [hdf]
    exact updateFirst_append_first (fun y hy => by simp [hfirst y hy]) (by simp [hid])
  simp only [registerAnalysisResult, Option.getD_some, hupd, attachAnalysis]
  exact ⟨trivial, rfl⟩

theorem key_pred_false {kind date : String} {a : AnalysisResult}
    (h : ¬(a.type = kind ∧ a.date = date)) :
    (a.type == kind && a.date == date) = false := by
  by_cases h1 : a.type = kind
  · have h2 : a.date ≠ date := fun h2 => h ⟨h1, h2⟩
    simp [h1, h2]
  · simp [h1]

theorem upsertAnalysis_no_key {kind date fp : String} {l : List AnalysisResult}
    (h : ∀ a ∈ l, ¬(a.type = kind ∧ a.date = date)) :
    upsertAnalysis kind date fp l = l ++ [⟨kind, date, fp⟩] := by
  unfold upsertAnalysis
  rw [updateFirst_eq_none (fun a ha => key_pred_false (h a ha))]

theorem upsertAnalysis_overwrite_last {kind date fp fp2 : String} {l : List AnalysisResult}
    (h : ∀ a ∈ l, ¬(a.type = kind ∧ a.date = date)) :
    upsertAnalysis kind date fp2 (l ++ [⟨kind, date, fp⟩]) = l ++ [⟨kind, date, fp2⟩] := by
  unfold upsertAnalysis
  rw [updateFirst_append_first (p := fun a => a.type == kind && a.date == date)
    (f := fun a => { a with file_path := fp2 }) (x := ⟨kind, date, fp⟩)
    (fun a ha => key_pred_false (h a ha)) (by simp)]

/-- C4: calling `register_analysis_result` twice with the same
`(snapshotId, kind, date)` and two different paths, on a snapshot that had
no result for that key, leaves exactly one `analysis_results` entry for
that `(kind, date)` key on that snapshot, and its path is the second
path. -/
theorem registerAnalysisResult_same_key_twice
    (l₁ : List DataFileEntry) (e : DataFileEntry) (l₂ : List DataFileEntry)
    (sid kind p1 p2 date : String) (now1 now2 : Timestamp) (st : State)
    (hdf : st.index.data_files = l₁ ++ e :: l₂)
    (hfirst : ∀ y ∈ l₁, y.id ≠ sid)
    (hid : e.id = sid)
    (hnokey : ∀ a ∈ e.analysis_results, ¬(a.type = kind ∧ a.date = date)) :
    (registerAnalysisResult sid kind p1 (some date) now1 st).1 = true ∧
    (registerAnalysisResult sid kind p2 (some date) now2
        (registerAnalysisResult sid kind p1 (some date) now1 st).2).1 = true ∧
    (registerAnalysisResult sid kind p2 (some date) now2
        (registerAnalysisResult sid kind p1 (some date) now1 st).2).2.index.data_files =
      l₁ ++ { e with analysis_results :=
                e.analysis_results ++ [AnalysisResult.mk kind date p2] } :: l₂ ∧
    ((e.analysis_results ++ [AnalysisResult.mk kind date p2]).filter
        (fun a => a.type == kind && a.date == date)) = [AnalysisResult.mk kind date p2] := by
  obtain ⟨h1ok, h1df⟩ := registerAnalysisResult_found_aux hdf hfirst hid
  rw [upsertAnalysis_no_key hnokey] at h1df
  obtain ⟨h2ok, h2df⟩ := registerAnalysisResult_found_aux
    (e := { e with analysis_results := e.analysis_results ++ [⟨kind, date, p1⟩] })
    h1df hfirst (by simpa using hid)
  rw [show ({ e with analysis_results := e.analysis_results ++ [⟨kind, date, p1⟩]} :
      DataFileEntry).analysis_results = e.analysis_results ++ [⟨kind, date, p1⟩] from rfl,
    upsertAnalysis_overwrite_last hnokey] at h2df
  refine ⟨h1ok, h2ok, h2df, ?_⟩
  rw [List.filter_append]
  have hnil : e.analysis_results.filter (fun a => a.type == kind && a.date == date) = [] :=
    List.filter_eq_nil_iff.mpr (fun a ha => by simp [key_pred_false (hnokey a ha)])
  rw [hnil]
  simp

/-- The analysis-kind dispatch of `register_analysis_result` leaves the
metrics untouched for any kind outside the three tracked ones. -/
theorem registerAnalysisResult_metrics_other
    (sid kind fp : String) (date? : Option String) (now : Timestamp) (st : State)
    (hk1 : kind ≠ "daily_digest") (hk2 : kind ≠ "weekly_summary")
    (hk3 : kind ≠ "monthly_report") :
    (registerAnalysisResult sid kind fp date? now st).2.index.analysis_metrics =
      st.index.analysis_metrics := by
  simp only [registerAnalysisResult]
  cases updateFirst (fun x => x.id == sid)
      (attachAnalysis kind (date?.getD (fmtDate now)) fp)
      st.index.data_files with
  | none => rfl
  | some dfs => simp [saveIndex, hk1, hk2, hk3]

theorem mem_upsertAnalysis_self (kind date fp : String) (l : List AnalysisResult) :
    (⟨kind, date, fp⟩ : AnalysisResult) ∈ upsertAnalysis kind date fp l := by
  unfold upsertAnalysis
  cases hu : updateFirst (fun a => a.type == kind && a.date == date)
      (fun a : AnalysisResult => { a with file_path := fp }) l with
  | none => simp
  | some l2 =>
    obtain ⟨l₁, x, l₃, rfl, hx, _, rfl⟩ := updateFirst_some_decomp hu
    have hx2 : x.type = kind ∧ x.date = date := by simpa using hx
    have hfx : ({ x with file_path := fp } : AnalysisResult) = ⟨kind, date, fp⟩ := by
      cases x
      simp_all
    simp [hfx]

/-- C10: for an existing snapshot id and an analysis kind outside
`{daily_digest, weekly_summary, monthly_report}` (e.g. `wordcloud`),
`register_analysis_result` still attaches the `(kind, date, path)` result
to that snapshot and returns `True`, but leaves every field of
`analysis_metrics` unchanged. -/
theorem registerAnalysisResult_untracked_kind
    (l₁ : List DataFileEntry) (e : DataFileEntry) (l₂ : List DataFileEntry)
    (sid kind fp date : String) (now : Timestamp) (st : State)
    (hdf : st.index.data_files = l₁ ++ e :: l₂)
    (hfirst : ∀ y ∈ l₁, y.id ≠ sid)
    (hid : e.id = sid)
    (hk1 : kind ≠ "daily_digest") (hk2 : kind ≠ "weekly_summary")
    (hk3 : kind ≠ "monthly_report") :
    (registerAnalysisResult sid kind fp (some date) now st).1 = true ∧
    (registerAnalysisResult sid kind fp (some date) now st).2.index.analysis_metrics =
      st.index.analysis_metrics ∧
    (registerAnalysisResult sid kind fp (some date) now st).2.index.data_files =
      l₁ ++ { e with analysis_results := upsertAnalysis kind date fp e.analysis_results } :: l₂ ∧
    (⟨kind, date, fp⟩ : AnalysisResult) ∈ upsertAnalysis kind date fp e.analysis_results := by
  obtain ⟨hok, hdf2⟩ := registerAnalysisResult_found_aux hdf hfirst hid
  exact ⟨hok, registerAnalysisResult_metrics_other sid kind fp (some date) now st hk1 hk2 hk3,
    hdf2, mem_upsertAnalysis_self kind date fp e.analysis_results⟩

/-! ## C7: the latest-snapshot query -/

/-- C7: `get_latest_data_file` returns `None` on an empty snapshot list;
returns the path of the unique `"current"` entry when there is exactly
one; and falls back to the last entry in insertion order when no entry is
marked `"current"`. -/
theorem getLatestDataFile_spec (idx : Index) (ft : FType) :
    (idx.data_files = [] → getLatestDataFile ft idx = none) ∧
    (∀ e, idx.data_files.filter (fun x => x.status == "current") = [e] →
      getLatestDataFile ft idx = some (e.file_paths.get ft)) ∧
    ((∀ e ∈ idx.data_files, e.status ≠ "current") →
      ∀ e, idx.data_files.getLast? = some e →
        getLatestDataFile ft idx = some (e.file_paths.get ft)) := by
  refine ⟨fun h => by simp [getLatestDataFile, h], fun e he => ?_, fun h e hlast => ?_⟩
  · have hmem : e ∈ idx.data_files := by
      have : e ∈ idx.data_files.filter (fun x => x.status == "current") := by
        rw [he]
        simp
      exact List.mem_of_mem_filter this
    have hne : idx.data_files ≠ [] := List.ne_nil_of_mem hmem
    rw [getLatestDataFile, if_neg hne, find?_eq_head_filter, List.filter_reverse, he]
    rfl
  · have hne : idx.data_files ≠ [] := by
      intro hnil
      rw [hnil] at hlast
      simp at hlast
    have hfil : idx.data_files.reverse.filter (fun x => x.status == "current") = [] := by
      rw [List.filter_eq_nil_iff]
      intro a ha
      simpa using h a (List.mem_reverse.mp ha)
    rw [getLatestDataFile, if_neg hne, find?_eq_head_filter, hfil, hlast]
    rfl

/-! ## C9: keyword search -/

/-- A snapshot entry used in the concrete search example (its content
holds an item with "QKD" in the title). -/
def exEntry1 : DataFileEntry :=
  { id := "20240101_090000", date := "2024-01-01", time := "09:00:00",
    file_paths := { csv := "data/current/quantum_crypto_data_20240101_090000.csv",
                    json := "data/current/quantum_crypto_data_20240101_090000.json" },
    stats := zeroStats, status := "archived", analysis_results := [] }

/-- The second snapshot entry of the search example (no matching item). -/
def exEntry2 : DataFileEntry :=
  { id := "20240102_090000", date := "2024-01-02", time := "09:00:00",
    file_paths := { csv := "data/current/quantum_crypto_data_20240102_090000.csv",
                    json := "data/current/quantum_crypto_data_20240102_090000.json" },
    stats := zeroStats, status := "current", analysis_results := [] }

/-- The matching item of the search example. -/
def exItemQ : Item :=
  { type := "news", source := "arxiv", title := "New QKD protocol milestone",
    summary := "quantum key distribution record" }

/-- A non-matching item of the search example. -/
def exItemO : Item :=
  { type := "news", source := "blog", title := "Lattice crypto update",
    summary := "post-quantum schemes" }

/-- The index of the search example: two snapshots. -/
def exIdx : Index :=
  { last_updated := "", data_files := [exEntry1, exEntry2],
    analysis_metrics := { last_daily_digest := none, last_weekly_summary := none,
                          last_monthly_report := none },
    podcasts := [] }

/-- The filesystem of the search example: both JSON content files exist;
only the first holds an item whose title contains "QKD". -/
def exFS : FS :=
  { emptyFS with
    currentDir := ["quantum_crypto_data_20240101_090000.json",
                   "quantum_crypto_data_20240102_090000.json"],
    content := fun p =>
      if p = "data/current/quantum_crypto_data_20240101_090000.json" then
        Content.items [exItemQ, exItemO]
      else if p = "data/current/quantum_crypto_data_20240102_090000.json" then
        Content.items [exItemO]
      else Content.absent }

/-- C9: `search_by_keyword` lower-cases the keyword and returns, for each
snapshot in order, one result entry exactly when the snapshot's JSON
content file is present, readable, and holds at least one item whose
lower-cased title or summary contains the keyword (a missing or
unreadable JSON file is skipped, never fatal); on the concrete
two-snapshot example where only the first snapshot's content has "QKD" in
a title, searching "qkd" returns exactly one result entry carrying that
one matching item. -/
theorem searchByKeyword_spec :
    (∀ keyword idx fs, searchByKeyword keyword idx fs =
      idx.data_files.filterMap (searchSnapshot (toLowerStr keyword) fs)) ∧
    (∀ kw fs e, fs.pathExists e.file_paths.json = false → searchSnapshot kw fs e = none) ∧
    (∀ kw fs e, fs.content e.file_paths.json = Content.invalid →
      searchSnapshot kw fs e = none) ∧
    searchByKeyword "qkd" exIdx exFS =
      [{ file_id := "20240101_090000", date := "2024-01-01", matched := [exItemQ] }] := by
  refine ⟨fun keyword idx fs => ?_, fun kw fs e h => ?_, fun kw fs e h => ?_, by decide⟩
  · simpa [searchByKeyword] using
      foldl_searchStep (toLowerStr keyword) fs idx.data_files []
  · simp [searchSnapshot, h]
  · unfold searchSnapshot
    rw [h]
    simp

/-- Witness for the search theorem: its general parts applied at
concrete inputs (a snapshot whose recorded JSON file does not exist, and
one whose file is unreadable, are both skipped). -/
theorem searchByKeyword_spec_witness :
    searchByKeyword "qkd" exIdx exFS =
      exIdx.data_files.filterMap (searchSnapshot (toLowerStr "qkd") exFS) ∧
    searchSnapshot "qkd" exFS
      { exEntry1 with file_paths := { csv := "data/current/nope.csv",
                                      json := "data/current/nope.json" } } = none ∧
    searchSnapshot "qkd" { exFS with content := fun _ => Content.invalid } exEntry1 = none :=
  ⟨searchByKeyword_spec.1 "qkd" exIdx exFS,
   searchByKeyword_spec.2.1 "qkd" exFS _ (by decide),
   searchByKeyword_spec.2.2.1 "qkd" _ exEntry1 rfl⟩

/-! ## Concrete fixtures for counterexamples and witnesses -/

/-- A concrete registration timestamp. -/
def cTs1 : Timestamp := ⟨2024, 1, 1, 9, 0, 0⟩

/-- A later concrete registration timestamp. -/
def cTs2 : Timestamp := ⟨2024, 1, 2, 9, 0, 0⟩

/-- A concrete "now". -/
def cNow : Timestamp := ⟨2025, 6, 1, 12, 0, 0⟩

/-- The state reached from the empty document by registering two
snapshots (two catalog operations; both snapshots' content files sit in
`data/current`, only the second index entry is `"current"`). -/
def cTwoSnaps : State :=
  runOps [Op.snap [] cTs1 cNow, Op.snap [] cTs2 cNow] (initState cNow)

/-- A snapshot entry with id `"A"` and no analysis results, for the
registration witnesses. -/
def wEntryA : DataFileEntry :=
  { id := "A", date := "2024-01-01", time := "09:00:00",
    file_paths := { csv := "data/current/a.csv", json := "data/current/a.json" },
    stats := zeroStats, status := "current", analysis_results := [] }

/-- A one-snapshot state for the registration witnesses. -/
def wStA : State :=
  { index := { last_updated := "", data_files := [wEntryA],
               analysis_metrics := { last_daily_digest := none, last_weekly_summary := none,
                                     last_monthly_report := none },
               podcasts := [] }
    fs := emptyFS }

/-! ## C1: the unique-current invariant across catalog operations -/

/-- C1 counterexample: starting from the empty document, the catalog
operation sequence registerSnapshot, registerSnapshot, rebuild leaves TWO
entries with `status = "current"` (both snapshots' files still sit in
`data/current`, and `rebuild_index` marks every id found there as
current), so the at-most-one-current invariant does not survive
`rebuild`. -/
theorem rebuild_breaks_unique_current :
    countCurrent ((rebuildIndex cNow cTwoSnaps).1.index) = 2 := by decide

theorem countCurrent_saveCollectedData (data : List Item) (ts now : Timestamp) (st : State) :
    countCurrent (saveCollectedData data ts now st).1.index = 1 := by
  unfold countCurrent
  rw [saveCollectedData_filter_current]
  rfl

theorem countP_current_of_statuses (l : List DataFileEntry) :
    l.countP (fun e => e.status == "current") =
      (l.map (fun e => e.status)).countP (fun s => s == "current") := by
  induction l with
  | nil => rfl
  | cons x xs ih => simp [List.countP_cons, ih]

theorem countCurrent_congr {idx idx2 : Index}
    (h : idx.data_files.map (fun e => e.status) = idx2.data_files.map (fun e => e.status)) :
    countCurrent idx = countCurrent idx2 := by
  unfold countCurrent
  rw [← List.countP_eq_length_filter, ← List.countP_eq_length_filter,
    countP_current_of_statuses, countP_current_of_statuses, h]

theorem statuses_registerAnalysisResult (data_id analysis_type file_path : String)
    (date? : Option String) (now : Timestamp) (st : State) :
    (registerAnalysisResult data_id analysis_type file_path date? now st).2.index.data_files.map
        (fun e => e.status) =
      st.index.data_files.map (fun e => e.status) := by
  simp only [registerAnalysisResult]
  cases h : updateFirst (fun e => e.id == data_id)
      (attachAnalysis analysis_type (date?.getD (fmtDate now)) file_path)
      st.index.data_files with
  | none => rfl
  | some dfs =>
    have h2 := updateFirst_map (p := fun e => e.id == data_id)
      (f := attachAnalysis analysis_type (date?.getD (fmtDate now)) file_path)
      (g := fun e : DataFileEntry => e.status) (fun x => rfl) h
    simpa [saveIndex] using h2

theorem archiveEntry_fold_statuses (th : String) (l : List DataFileEntry)
    (acc : List DataFileEntry × FS × Nat) :
    ((l.foldl (archiveEntry th) acc).1.map (fun e => e.status)) =
      acc.1.map (fun e => e.status) ++ l.map (fun e => e.status) := by
  induction l generalizing acc with
  | nil => simp
  | cons x xs ih =>
    rw [List.foldl_cons, ih]
    by_cases h : (x.status == "archived" && pyStrLt x.date th) = true
    · simp only [archiveEntry, if_pos h]
      simp
    · simp only [archiveEntry, if_neg h]
      simp

theorem statuses_archiveOldData (th : String) (now : Timestamp) (st : State) :
    (archiveOldData th now st).1.index.data_files.map (fun e => e.status) =
      st.index.data_files.map (fun e => e.status) := by
  unfold archiveOldData
  by_cases h : (st.index.data_files.foldl (archiveEntry th) ([], st.fs, 0)).2.2 > 0
  · simpa [h, saveIndex] using archiveEntry_fold_statuses th st.index.data_files ([], st.fs, 0)
  · simpa [h] using archiveEntry_fold_statuses th st.index.data_files ([], st.fs, 0)

theorem countCurrent_applyOp_le (op : Op) (st : State) (h : countCurrent st.index ≤ 1) :
    countCurrent (applyOp st op).index ≤ 1 := by
  cases op with
  | snap data ts now =>
    simpa [applyOp] using Nat.le_of_eq (countCurrent_saveCollectedData data ts now st)
  | analysis i t f d now =>
    rw [applyOp, countCurrent_congr (statuses_registerAnalysisResult i t f d now st)]
    exact h
  | podcast p s a d now => exact h
  | archiveOp th now =>
    rw [applyOp, countCurrent_congr (statuses_archiveOldData th now st)]
    exact h
  | extAnalysisFile folder name => exact h
  | extPodcastFile w name => exact h

theorem countCurrent_runOps_le (ops : List Op) (st : State) (h : countCurrent st.index ≤ 1) :
    countCurrent ((runOps ops st).index) ≤ 1 := by
  induction ops generalizing st with
  | nil => exact h
  | cons op ops ih =>
    rw [runOps, List.foldl_cons]
    exact ih _ (countCurrent_applyOp_le op st h)

/-- C1 amended: starting from the empty document, at most one snapshot
entry has `status = "current"` after every `registerSnapshot`,
`registerAnalysisResult`, `registerPodcast` and `archive` operation (and
external artifact-file writes); `rebuild` is excluded — it marks every
snapshot id found in `data/current` as current and can therefore leave
several current entries (see the counterexample). -/
theorem normalOps_at_most_one_current (now : Timestamp) (ops : List Op) :
    countCurrent ((runOps ops (initState now)).index) ≤ 1 :=
  countCurrent_runOps_le ops _ (by simp [initState, createNewIndex, countCurrent])

/-! ## C2: archive is not idempotent -/

/-- C2 counterexample: from the empty document, register two snapshots
(the first becomes `"archived"`), then archive with a threshold beyond
its date: 2 files are moved and counted.  Running the very same archive
again — when both of that entry's files are already physically located in
the archive directory — counts (and self-moves) the same 2 files again
instead of 0: `archive` double-counts files already in the archive. -/
theorem archive_double_counts :
    (archiveOldData "2025-01-01" cNow cTwoSnaps).2 = 2 ∧
    (archiveOldData "2025-01-01" cNow (archiveOldData "2025-01-01" cNow cTwoSnaps).1).2 = 2 := by
  exact ⟨by decide, by decide⟩

/-! ## Path and filesystem lemmas -/

theorem contains_iff_mem {l : List String} {a : String} : l.contains a = true ↔ a ∈ l := by
  simp [List.contains, List.elem_iff]

theorem mem_insertName_self (n : String) (l : List String) : n ∈ insertName n l := by
  unfold insertName
  by_cases h : l.contains n = true
  · rw [if_pos h]
    exact contains_iff_mem.mp h
  · rw [if_neg h]
    simp

theorem mem_insertName_iff {a n : String} {l : List String} :
    a ∈ insertName n l ↔ a ∈ l ∨ a = n := by
  unfold insertName
  by_cases h : l.contains n = true
  · rw [if_pos h]
    exact ⟨Or.inl, fun hc => hc.elim id (fun he => he ▸ contains_iff_mem.mp h)⟩
  · rw [if_neg h]
    simp

theorem strAppend_inj_right {pre a b : String} (h : pre ++ a = pre ++ b) : a = b := by
  have h2 := congrArg String.data h
  rw [strData_append, strData_append] at h2
  exact strExt (List.append_cancel_left h2)

theorem currentPath_inj {a b : String} (h : currentPath a = currentPath b) : a = b :=
  strAppend_inj_right h

theorem archivesPath_inj {a b : String} (h : archivesPath a = archivesPath b) : a = b :=
  strAppend_inj_right h

theorem currentPath_ne_archivesPath (a b : String) : currentPath a ≠ archivesPath b := by
  intro h
  have h2 := congrArg String.data h
  rw [currentPath, archivesPath, strData_append, strData_append,
    show ("data/current/" : String).data =
      ['d','a','t','a','/','c','u','r','r','e','n','t','/'] from rfl,
    show ("data/archives/" : String).data =
      ['d','a','t','a','/','a','r','c','h','i','v','e','s','/'] from rfl] at h2
  simp at h2

theorem currentPath_ne_podPath (f a b : String) : currentPath a ≠ podPath f b := by
  intro h
  have h2 := congrArg String.data h
  simp only [currentPath, podPath, strData_append] at h2
  simp at h2

theorem archivesPath_ne_podPath (f a b : String) : archivesPath a ≠ podPath f b := by
  intro h
  have h2 := congrArg String.data h
  simp only [archivesPath, podPath, strData_append] at h2
  simp at h2

theorem pathExists_currentPath (fs : FS) (n : String) :
    fs.pathExists (currentPath n) = fs.currentDir.contains n := by
  rw [Bool.eq_iff_iff, FS.pathExists, contains_iff_mem, contains_iff_mem]
  unfold FS.allPaths
  simp only [List.mem_append, List.mem_map]
  constructor
  · rintro (((⟨m, hm, he⟩ | ⟨m, hm, he⟩) | ⟨m, hm, he⟩) | ⟨m, hm, he⟩)
    · exact currentPath_inj he ▸ hm
    · exact absurd he.symm (currentPath_ne_archivesPath n m)
    · exact absurd he.symm (currentPath_ne_podPath "weekly" n m)
    · exact absurd he.symm (currentPath_ne_podPath "monthly" n m)
  · intro h
    exact Or.inl (Or.inl (Or.inl ⟨n, h, rfl⟩))

theorem pathExists_archivesPath (fs : FS) (n : String) :
    fs.pathExists (archivesPath n) = fs.archivesDir.contains n := by
  rw [Bool.eq_iff_iff, FS.pathExists, contains_iff_mem, contains_iff_mem]
  unfold FS.allPaths
  simp only [List.mem_append, List.mem_map]
  constructor
  · rintro (((⟨m, hm, he⟩ | ⟨m, hm, he⟩) | ⟨m, hm, he⟩) | ⟨m, hm, he⟩)
    · exact absurd he (currentPath_ne_archivesPath m n)
    · exact archivesPath_inj he ▸ hm
    · exact absurd he.symm (archivesPath_ne_podPath "weekly" n m)
    · exact absurd he.symm (archivesPath_ne_podPath "monthly" n m)
  · intro h
    exact Or.inl (Or.inl (Or.inr ⟨n, h, rfl⟩))

theorem splitOnCharAux_no_sep {c : Char} {l : List Char} (h : c ∉ l) :
    splitOnCharAux c l = [l] := by
  induction l with
  | nil => rfl
  | cons x xs ih =>
    have hx : ¬(x = c) := fun he => h (he ▸ List.mem_cons_self x xs)
    rw [splitOnCharAux, ih (fun hm => h (List.mem_cons_of_mem x hm))]
    simp [hx]

theorem splitOnCharAux_ne_nil (c : Char) (l : List Char) : splitOnCharAux c l ≠ [] := by
  cases l with
  | nil => simp [splitOnCharAux]
  | cons x xs =>
    rw [splitOnCharAux]
    cases splitOnCharAux c xs with
    | nil => simp
    | cons r rs =>
      by_cases hxc : x = c
      · simp [hxc]
      · simp [hxc]

theorem splitOnCharAux_sep {c : Char} {l₁ l₂ : List Char} (h : c ∉ l₁) :
    splitOnCharAux c (l₁ ++ c :: l₂) = l₁ :: splitOnCharAux c l₂ := by
  induction l₁ with
  | nil =>
    rw [List.nil_append, splitOnCharAux]
    cases hs : splitOnCharAux c l₂ with
    | nil => exact absurd hs (splitOnCharAux_ne_nil c l₂)
    | cons r rs => simp
  | cons x xs ih =>
    have hx : ¬(x = c) := fun he => h (he ▸ List.mem_cons_self x xs)
    rw [List.cons_append, splitOnCharAux, ih (fun hm => h (List.mem_cons_of_mem x hm))]
    simp [hx]

theorem basename_currentPath {n : String} (h : ('/' : Char) ∉ n.data) :
    basename (currentPath n) = n := by
  unfold basename splitOnChar currentPath
  have e1 : ("data/current/" ++ n).data =
      ['d','a','t','a'] ++ '/' :: (['c','u','r','r','e','n','t'] ++ '/' :: n.data) := by
    rw [strData_append]
    rfl
  rw [e1, splitOnCharAux_sep (by decide), splitOnCharAux_sep (by decide),
    splitOnCharAux_no_sep h]
  simp [strMk_data]

theorem basename_archivesPath {n : String} (h : ('/' : Char) ∉ n.data) :
    basename (archivesPath n) = n := by
  unfold basename splitOnChar archivesPath
  have e1 : ("data/archives/" ++ n).data =
      ['d','a','t','a'] ++ '/' :: (['a','r','c','h','i','v','e','s'] ++ '/' :: n.data) := by
    rw [strData_append]
    rfl
  rw [e1, splitOnCharAux_sep (by decide), splitOnCharAux_sep (by decide),
    splitOnCharAux_no_sep h]
  simp [strMk_data]

/-! ## C2 amended: what archive actually guarantees -/

theorem archive_fold_noop (th : String) (l : List DataFileEntry) (done : List DataFileEntry)
    (fs : FS) (n : Nat)
    (h : ∀ e ∈ l, (e.status == "archived" && pyStrLt e.date th) = true →
      fs.pathExists e.file_paths.csv = false ∧ fs.pathExists e.file_paths.json = false) :
    l.foldl (archiveEntry th) (done, fs, n) = (done ++ l, fs, n) := by
  induction l generalizing done with
  | nil => simp
  | cons x xs ih =>
    have hstep : archiveEntry th (done, fs, n) x = (done ++ [x], fs, n) := by
      by_cases hx : (x.status == "archived" && pyStrLt x.date th) = true
      · obtain ⟨h1, h2⟩ := h x (by simp) hx
        have s1 : archiveFile (fs, n) x.file_paths.csv = ((fs, n), x.file_paths.csv) := by
          rw [archiveFile, if_neg (by simp [h1])]
        have s2 : archiveFile (fs, n) x.file_paths.json = ((fs, n), x.file_paths.json) := by
          rw [archiveFile, if_neg (by simp [h2])]
        simp only [archiveEntry, if_pos hx]
        simp [s1, s2]
      · simp only [archiveEntry, if_neg hx]
    rw [List.foldl_cons, hstep, ih (done ++ [x]) (fun e he hs => h e (by simp [he]) hs)]
    simp

/-- C2 amended: `archive(olderThanDays)` skips and does not count a
missing source file — an invocation under which no eligible entry's
recorded file exists moves nothing, changes nothing and returns 0 — but
it is NOT idempotent: an eligible entry whose recorded files already sit
in the archive directory still "exists" at its recorded path, so a second
invocation moves each such file onto itself and counts it again. -/
theorem archiveOldData_amended :
    (∀ th now st,
      (∀ e ∈ st.index.data_files, (e.status == "archived" && pyStrLt e.date th) = true →
        st.fs.pathExists e.file_paths.csv = false ∧
        st.fs.pathExists e.file_paths.json = false) →
      archiveOldData th now st = (st, 0)) ∧
    (∀ th now st e cn jn,
      st.index.data_files = [e] →
      e.status = "archived" → pyStrLt e.date th = true →
      e.file_paths.csv = archivesPath cn → e.file_paths.json = archivesPath jn →
      cn ∈ st.fs.archivesDir → jn ∈ st.fs.archivesDir →
      ('/' : Char) ∉ cn.data → ('/' : Char) ∉ jn.data → cn ≠ jn →
      (archiveOldData th now st).2 = 2) := by
  constructor
  · intro th now st h
    unfold archiveOldData
    rw [archive_fold_noop th st.index.data_files [] st.fs 0 h]
    simp
  · intro th now st e cn jn hdf hstat hlt hcsv hjson hcmem hjmem hcs hjs hne
    have hcond : (e.status == "archived" && pyStrLt e.date th) = true := by
      simp [hstat, hlt]
    have hpe1 : st.fs.pathExists e.file_paths.csv = true := by
      rw [hcsv, pathExists_archivesPath, contains_iff_mem]
      exact hcmem
    have hstep1 : archiveFile (st.fs, 0) e.file_paths.csv =
        ((st.fs.moveToArchives (archivesPath cn) cn, 1), archivesPath cn) := by
      rw [archiveFile, if_pos hpe1, hcsv, basename_archivesPath hcs]
    have hjmem2 : jn ∈ (st.fs.moveToArchives (archivesPath cn) cn).archivesDir := by
      show jn ∈ insertName cn (st.fs.archivesDir.filter
        (fun m => decide (archivesPath m ≠ archivesPath cn)))
      refine mem_insertName_iff.mpr (Or.inl ?_)
      refine List.mem_filter.mpr ⟨hjmem, ?_⟩
      simp only [decide_eq_true_eq]
      exact fun hc => hne (archivesPath_inj hc).symm
    have hpe2 : (st.fs.moveToArchives (archivesPath cn) cn).pathExists e.file_paths.json = true := by
      rw [hjson, pathExists_archivesPath, contains_iff_mem]
      exact hjmem2
    have hstep2 : archiveFile (st.fs.moveToArchives (archivesPath cn) cn, 1) e.file_paths.json =
        (((st.fs.moveToArchives (archivesPath cn) cn).moveToArchives (archivesPath jn) jn, 2),
          archivesPath jn) := by
      rw [archiveFile, if_pos hpe2, hjson, basename_archivesPath hjs]
    unfold archiveOldData
    rw [hdf, List.foldl_cons, List.foldl_nil]
    simp only [archiveEntry, if_pos hcond]
    simp [hstep1, hstep2]

/-- An already-archived-on-disk entry for the archive witness. -/
def wEntryArch : DataFileEntry :=
  { wEntryA with
    status := "archived"
    file_paths := { csv := archivesPath "a.csv", json := archivesPath "a.json" } }

/-- A state whose only entry's files already sit in the archive
directory. -/
def wStArch : State :=
  { index := { last_updated := "", data_files := [wEntryArch],
               analysis_metrics := { last_daily_digest := none, last_weekly_summary := none,
                                     last_monthly_report := none },
               podcasts := [] }
    fs := { emptyFS with archivesDir := ["a.csv", "a.json"] } }

/-- Witness for both halves of the amended archive theorem: a state whose
only entry is not eligible (nothing moves, result `(st, 0)`), and a state
whose only entry's two files already sit in the archive directory (a run
still counts 2). -/
theorem archiveOldData_amended_witness :
    archiveOldData "2025-01-01" cNow wStA = (wStA, 0) ∧
    (archiveOldData "2025-01-01" cNow wStArch).2 = 2 :=
  ⟨archiveOldData_amended.1 "2025-01-01" cNow wStA (by decide),
   archiveOldData_amended.2 "2025-01-01" cNow wStArch wEntryArch "a.csv" "a.json" (by decide)
     (by decide) (by decide) (by decide) (by decide) (by decide) (by decide) (by decide)
     (by decide) (by decide)⟩

/-! ## Witnesses for the hypothesised theorems -/

/-- Witness for the C4 theorem at a concrete one-snapshot state. -/
theorem registerAnalysisResult_same_key_twice_witness :
    (registerAnalysisResult "A" "daily_digest" "p2" (some "2024-01-01") cNow
        (registerAnalysisResult "A" "daily_digest" "p1" (some "2024-01-01") cNow
          wStA).2).2.index.data_files =
      [{ wEntryA with analysis_results := [AnalysisResult.mk "daily_digest" "2024-01-01" "p2"] }] := by
  have h := registerAnalysisResult_same_key_twice [] wEntryA [] "A" "daily_digest" "p1" "p2"
    "2024-01-01" cNow cNow wStA rfl (by simp) rfl (by simp [wEntryA])
  simpa [wEntryA] using h.2.2.1

/-- Witness for the C7 theorem: the three cases at concrete indices. -/
theorem getLatestDataFile_spec_witness :
    getLatestDataFile FType.json (createNewIndex cNow) = none ∧
    getLatestDataFile FType.json exIdx = some (exEntry2.file_paths.get FType.json) ∧
    getLatestDataFile FType.json { exIdx with data_files := [exEntry1] } =
      some (exEntry1.file_paths.get FType.json) :=
  ⟨(getLatestDataFile_spec (createNewIndex cNow) FType.json).1 rfl,
   (getLatestDataFile_spec exIdx FType.json).2.1 exEntry2 (by decide),
   (getLatestDataFile_spec { exIdx with data_files := [exEntry1] } FType.json).2.2
     (by decide) exEntry1 (by decide)⟩

/-- Witness for the C8 theorem at a concrete state holding an unrelated
snapshot. -/
theorem registerAnalysisResult_missing_id_witness :
    registerAnalysisResult "ZZ" "daily_digest" "p" none cNow wStA = (false, wStA) :=
  registerAnalysisResult_missing_id "ZZ" "daily_digest" "p" none cNow wStA (by decide)

/-- Witness for the C10 theorem with the untracked kind `wordcloud`. -/
theorem registerAnalysisResult_untracked_kind_witness :
    (registerAnalysisResult "A" "wordcloud" "wc.png" (some "2024-01-01") cNow wStA).1 = true ∧
    (registerAnalysisResult "A" "wordcloud" "wc.png" (some "2024-01-01") cNow
        wStA).2.index.analysis_metrics = wStA.index.analysis_metrics ∧
    AnalysisResult.mk "wordcloud" "2024-01-01" "wc.png" ∈
      upsertAnalysis "wordcloud" "2024-01-01" "wc.png" wEntryA.analysis_results := by
  have h := registerAnalysisResult_untracked_kind [] wEntryA [] "A" "wordcloud" "wc.png"
    "2024-01-01" cNow wStA rfl (by simp) rfl (by decide) (by decide) (by decide)
  exact ⟨h.1, h.2.1, h.2.2.2⟩

/-! ## C6: character-class and round-trip lemmas for snapshot names -/

/-- The ten decimal digit characters. -/
def decDigits : List Char := ['0','1','2','3','4','5','6','7','8','9']

theorem digitChar_lt10_mem {k : Nat} (h : k < 10) : Nat.digitChar k ∈ decDigits := by
  interval_cases k <;> decide

theorem digitChar_mod_mem (n : Nat) : Nat.digitChar (n % 10) ∈ decDigits :=
  digitChar_lt10_mem (Nat.mod_lt _ (by omega))

theorem digitChar_toNat {k : Nat} (h : k < 10) : (Nat.digitChar k).toNat = 48 + k := by
  interval_cases k <;> decide

theorem mem_decDigits_isDigit {c : Char} (h : c ∈ decDigits) : c.isDigit = true := by
  fin_cases h <;> decide

theorem mem_decDigits_props {c : Char} (h : c ∈ decDigits) :
    c ≠ '_' ∧ c ≠ '.' ∧ c ≠ 'q' ∧ c ≠ '/' := by
  fin_cases h <;> decide

theorem two_data (n : Nat) :
    (two n).data = [Nat.digitChar (n / 10 % 10), Nat.digitChar (n % 10)] := rfl

theorem four_data (n : Nat) :
    (four n).data = [Nat.digitChar (n / 1000 % 10), Nat.digitChar (n / 100 % 10),
      Nat.digitChar (n / 10 % 10), Nat.digitChar (n % 10)] := rfl

theorem mem_two_digits {c : Char} {n : Nat} (h : c ∈ (two n).data) : c ∈ decDigits := by
  rw [two_data] at h
  simp only [List.mem_cons, List.not_mem_nil, or_false] at h
  rcases h with rfl | rfl
  · exact digitChar_mod_mem _
  · exact digitChar_mod_mem _

theorem mem_four_digits {c : Char} {n : Nat} (h : c ∈ (four n).data) : c ∈ decDigits := by
  rw [four_data] at h
  simp only [List.mem_cons, List.not_mem_nil, or_false] at h
  rcases h with rfl | rfl | rfl | rfl
  · exact digitChar_mod_mem _
  · exact digitChar_mod_mem _
  · exact digitChar_mod_mem _
  · exact digitChar_mod_mem _

theorem mem_dateStr8_digits {c : Char} {t : Timestamp} (h : c ∈ (dateStr8 t).data) :
    c ∈ decDigits := by
  rw [dateStr8, strData_append, strData_append] at h
  rcases List.mem_append.mp h with h2 | h2
  · rcases List.mem_append.mp h2 with h3 | h3
    · exact mem_four_digits h3
    · exact mem_two_digits h3
  · exact mem_two_digits h2

theorem mem_timeStr6_digits {c : Char} {t : Timestamp} (h : c ∈ (timeStr6 t).data) :
    c ∈ decDigits := by
  rw [timeStr6, strData_append, strData_append] at h
  rcases List.mem_append.mp h with h2 | h2
  · rcases List.mem_append.mp h2 with h3 | h3
    · exact mem_two_digits h3
    · exact mem_two_digits h3
  · exact mem_two_digits h2

theorem fmtId_data (t : Timestamp) :
    (fmtId t).data = (dateStr8 t).data ++ '_' :: (timeStr6 t).data := by
  rw [fmtId, strData_append, strData_append,
    show ("_" : String).data = ['_'] from rfl]
  simp

theorem mem_fmtId_chars {c : Char} {t : Timestamp} (h : c ∈ (fmtId t).data) :
    c = '_' ∨ c ∈ decDigits := by
  rw [fmtId_data] at h
  rcases List.mem_append.mp h with h2 | h2
  · exact Or.inr (mem_dateStr8_digits h2)
  · rcases List.mem_cons.mp h2 with rfl | h3
    · exact Or.inl rfl
    · exact Or.inr (mem_timeStr6_digits h3)

theorem isPrefixOf_append_self (p r : List Char) : p.isPrefixOf (p ++ r) = true := by
  induction p with
  | nil => simp [List.isPrefixOf]
  | cons a as ih => simp [List.isPrefixOf, ih]

theorem strEndsWith_append (x post : String) : strEndsWith (x ++ post) post = true := by
  unfold strEndsWith
  rw [strData_append, List.reverse_append]
  exact isPrefixOf_append_self _ _

theorem strStartsWith_append (pre y : String) : strStartsWith (pre ++ y) pre = true := by
  unfold strStartsWith
  rw [strData_append]
  exact isPrefixOf_append_self _ _

theorem strAppend_assoc (a b c : String) : a ++ b ++ c = a ++ (b ++ c) :=
  strExt (by simp [strData_append])

theorem dateStr8_data_explicit (t : Timestamp) :
    (dateStr8 t).data =
      [Nat.digitChar (t.year / 1000 % 10), Nat.digitChar (t.year / 100 % 10),
       Nat.digitChar (t.year / 10 % 10), Nat.digitChar (t.year % 10),
       Nat.digitChar (t.month / 10 % 10), Nat.digitChar (t.month % 10),
       Nat.digitChar (t.day / 10 % 10), Nat.digitChar (t.day % 10)] := by
  rw [dateStr8, strData_append, strData_append, four_data, two_data, two_data]
  rfl

theorem timeStr6_data_explicit (t : Timestamp) :
    (timeStr6 t).data =
      [Nat.digitChar (t.hour / 10 % 10), Nat.digitChar (t.hour % 10),
       Nat.digitChar (t.minute / 10 % 10), Nat.digitChar (t.minute % 10),
       Nat.digitChar (t.second / 10 % 10), Nat.digitChar (t.second % 10)] := by
  rw [timeStr6, strData_append, strData_append, two_data, two_data, two_data]
  rfl

theorem timestamp_valid_fields {t : Timestamp} (h : t.valid = true) :
    1 ≤ t.year ∧ t.year ≤ 9999 ∧ 1 ≤ t.month ∧ t.month ≤ 12 ∧
    1 ≤ t.day ∧ t.day ≤ 31 ∧ t.hour ≤ 23 ∧ t.minute ≤ 59 ∧ t.second ≤ 59 := by
  unfold Timestamp.valid at h
  simp only [Bool.and_eq_true, decide_eq_true_eq] at h
  omega

theorem digitVal2 {n : Nat} (h : n < 100) :
    10 * ((Nat.digitChar (n / 10 % 10)).toNat - 48) + ((Nat.digitChar (n % 10)).toNat - 48)
      = n := by
  rw [digitChar_toNat (Nat.mod_lt _ (by omega)), digitChar_toNat (Nat.mod_lt _ (by omega))]
  omega

theorem parseDate8_cons (y1 y2 y3 y4 m1 m2 d1 d2 : Char) :
    parseDate8 (String.mk [y1, y2, y3, y4, m1, m2, d1, d2]) =
      if (y1.isDigit && y2.isDigit && y3.isDigit && y4.isDigit &&
          m1.isDigit && m2.isDigit && d1.isDigit && d2.isDigit) = true then
        if (decide (1 ≤ 10 * (m1.toNat - 48) + (m2.toNat - 48)) &&
            decide (10 * (m1.toNat - 48) + (m2.toNat - 48) ≤ 12) &&
            decide (1 ≤ 10 * (d1.toNat - 48) + (d2.toNat - 48)) &&
            decide (10 * (d1.toNat - 48) + (d2.toNat - 48) ≤ 31)) = true then
          some (String.mk [y1, y2, y3, y4, '-', m1, m2, '-', d1, d2])
        else none
      else none := rfl

theorem parseDate8_isSome {t : Timestamp} (h : t.valid = true) :
    (parseDate8 (dateStr8 t)).isSome = true := by
  obtain ⟨h1, h2, h3, h4, h5, h6, _, _, _⟩ := timestamp_valid_fields h
  have hs : dateStr8 t = String.mk
      [Nat.digitChar (t.year / 1000 % 10), Nat.digitChar (t.year / 100 % 10),
       Nat.digitChar (t.year / 10 % 10), Nat.digitChar (t.year % 10),
       Nat.digitChar (t.month / 10 % 10), Nat.digitChar (t.month % 10),
       Nat.digitChar (t.day / 10 % 10), Nat.digitChar (t.day % 10)] := by
    rw [← dateStr8_data_explicit, strMk_data]
  rw [hs, parseDate8_cons]
  rw [if_pos (by
    simp only [Bool.and_eq_true]
    refine ⟨⟨⟨⟨⟨⟨⟨?_, ?_⟩, ?_⟩, ?_⟩, ?_⟩, ?_⟩, ?_⟩, ?_⟩ <;>
      exact mem_decDigits_isDigit (digitChar_mod_mem _))]
  rw [if_pos (by
    rw [digitVal2 (show t.month < 100 by omega), digitVal2 (show t.day < 100 by omega)]
    simp only [Bool.and_eq_true, decide_eq_true_eq]
    omega)]
  rfl

theorem parseTime6_cons (h1 h2 m1 m2 s1 s2 : Char) :
    parseTime6 (String.mk [h1, h2, m1, m2, s1, s2]) =
      if (h1.isDigit && h2.isDigit && m1.isDigit && m2.isDigit &&
          s1.isDigit && s2.isDigit) = true then
        if (decide (10 * (h1.toNat - 48) + (h2.toNat - 48) ≤ 23) &&
            decide (10 * (m1.toNat - 48) + (m2.toNat - 48) ≤ 59) &&
            decide (10 * (s1.toNat - 48) + (s2.toNat - 48) ≤ 59)) = true then
          some (String.mk [h1, h2, ':', m1, m2, ':', s1, s2])
        else none
      else none := rfl

theorem parseTime6_isSome {t : Timestamp} (h : t.valid = true) :
    (parseTime6 (timeStr6 t)).isSome = true := by
  obtain ⟨_, _, _, _, _, _, h7, h8, h9⟩ := timestamp_valid_fields h
  have hs : timeStr6 t = String.mk
      [Nat.digitChar (t.hour / 10 % 10), Nat.digitChar (t.hour % 10),
       Nat.digitChar (t.minute / 10 % 10), Nat.digitChar (t.minute % 10),
       Nat.digitChar (t.second / 10 % 10), Nat.digitChar (t.second % 10)] := by
    rw [← timeStr6_data_explicit, strMk_data]
  rw [hs, parseTime6_cons]
  rw [if_pos (by
    simp only [Bool.and_eq_true]
    refine ⟨⟨⟨⟨⟨?_, ?_⟩, ?_⟩, ?_⟩, ?_⟩, ?_⟩ <;>
      exact mem_decDigits_isDigit (digitChar_mod_mem _))]
  rw [if_pos (by
    rw [digitVal2 (show t.hour < 100 by omega), digitVal2 (show t.minute < 100 by omega),
      digitVal2 (show t.second < 100 by omega)]
    simp only [Bool.and_eq_true, decide_eq_true_eq]
    omega)]
  rfl

theorem splitOnChar_fmtId (t : Timestamp) :
    splitOnChar '_' (fmtId t) = [dateStr8 t, timeStr6 t] := by
  unfold splitOnChar
  rw [fmtId_data,
    splitOnCharAux_sep (fun hm => ((mem_decDigits_props (mem_dateStr8_digits hm)).1 rfl).elim),
    splitOnCharAux_no_sep (fun hm => ((mem_decDigits_props (mem_timeStr6_digits hm)).1 rfl).elim)]
  simp [strMk_data]

theorem stripAllGo_no_occ {pat : List Char} {q : Char} (hq : pat.head? = some q)
    {l : List Char} {fuel : Nat} (hf : l.length ≤ fuel) (hnl : q ∉ l) :
    stripAllGo pat fuel l = l := by
  induction fuel generalizing l with
  | zero =>
    cases l with
    | nil => rfl
    | cons x xs => simp at hf
  | succ fuel ih =>
    cases l with
    | nil => rfl
    | cons x xs =>
      obtain ⟨pt, rfl⟩ : ∃ pt, pat = q :: pt := by
        cases pat with
        | nil => simp at hq
        | cons a as =>
          have ha : a = q := by simpa using hq
          exact ⟨as, by rw [ha]⟩
      have hno : ¬((q :: pt).isPrefixOf (x :: xs) = true ∧ (q :: pt).length ≠ 0) := by
        rintro ⟨hp, -⟩
        simp only [List.isPrefixOf, Bool.and_eq_true, beq_iff_eq] at hp
        exact hnl (hp.1 ▸ List.mem_cons_self x xs)
      rw [stripAllGo, if_neg hno,
        ih (by simpa using Nat.le_of_succ_le_succ (by simpa using hf))
          (fun hm => hnl (List.mem_cons_of_mem x hm))]

theorem stripAll_prefix_no_occ {pat rest : String} {q : Char} (hq : pat.data.head? = some q)
    (hnr : q ∉ rest.data) : stripAll pat (pat ++ rest) = rest := by
  unfold stripAll
  obtain ⟨pt, hp⟩ : ∃ pt, pat.data = q :: pt := by
    cases hpd : pat.data with
    | nil => simp [hpd] at hq
    | cons a as =>
      have ha : a = q := by simpa [hpd] using hq
      exact ⟨as, by rw [ha]⟩
  rw [strData_append, hp, List.cons_append, List.length_cons, stripAllGo,
    if_pos ⟨isPrefixOf_append_self (q :: pt) rest.data, by simp⟩]
  have hdrop : (pt ++ rest.data).drop ((q :: pt).length - 1) = rest.data := by
    simp [List.drop_left]
  rw [hdrop, stripAllGo_no_occ (show (q :: pt).head? = some q from rfl)
    (by simp only [List.length_append]; omega) hnr]

theorem q_not_mem_snapTail {t : Timestamp} {ext : String}
    (hext : ext = ".csv" ∨ ext = ".json") : ('q' : Char) ∉ (fmtId t ++ ext).data := by
  rw [strData_append]
  intro hm
  rcases List.mem_append.mp hm with h2 | h2
  · rcases mem_fmtId_chars h2 with h3 | h3
    · exact absurd h3 (by decide)
    · exact (mem_decDigits_props h3).2.2.1 rfl
  · rcases hext with rfl | rfl
    · exact absurd h2 (by decide)
    · exact absurd h2 (by decide)

theorem parseSnapName_canonical {t : Timestamp} (hv : t.valid = true) {ext : String}
    (hext : ext = ".csv" ∨ ext = ".json") :
    ∃ d tm, parseSnapName (snapStem ++ fmtId t ++ ext) = some (fmtId t, d, tm) := by
  have hdot : ('.' : Char) ∉ (fmtId t).data := by
    intro hm
    rcases mem_fmtId_chars hm with h3 | h3
    · exact absurd h3 (by decide)
    · exact (mem_decDigits_props h3).2.1 rfl
  obtain ⟨d, hd⟩ := Option.isSome_iff_exists.mp (parseDate8_isSome hv)
  obtain ⟨tm, htm⟩ := Option.isSome_iff_exists.mp (parseTime6_isSome hv)
  refine ⟨d, tm, ?_⟩
  have hstrip : stripAll snapStem (snapStem ++ fmtId t ++ ext) = fmtId t ++ ext := by
    rw [strAppend_assoc]
    exact stripAll_prefix_no_occ rfl (q_not_mem_snapTail hext)
  have hsp : (splitOnChar '.' (fmtId t ++ ext)).headD "" = fmtId t := by
    rcases hext with rfl | rfl
    · unfold splitOnChar
      rw [show (fmtId t ++ ".csv").data = (fmtId t).data ++ '.' :: ['c','s','v'] from by
          rw [strData_append],
        splitOnCharAux_sep hdot]
      simp [strMk_data]
    · unfold splitOnChar
      rw [show (fmtId t ++ ".json").data = (fmtId t).data ++ '.' :: ['j','s','o','n'] from by
          rw [strData_append],
        splitOnCharAux_sep hdot]
      simp [strMk_data]
  unfold parseSnapName
  rw [hstrip, hsp]
  simp [splitOnChar_fmtId, hd, htm]

theorem recognizedId_canonical {t : Timestamp} (hv : t.valid = true) {ext : String}
    (hext : ext = ".csv" ∨ ext = ".json") :
    recognizedId (snapStem ++ fmtId t ++ ext) = some (fmtId t) := by
  obtain ⟨d, tm, hp⟩ := parseSnapName_canonical hv hext
  have hguard : snapGuard (snapStem ++ fmtId t ++ ext) = true := by
    have h1 : strStartsWith (snapStem ++ fmtId t ++ ext) snapStem = true := by
      rw [strAppend_assoc]
      exact strStartsWith_append _ _
    rcases hext with rfl | rfl
    · have h2 : strEndsWith (snapStem ++ fmtId t ++ ".csv") ".csv" = true :=
        strEndsWith_append _ _
      simp [snapGuard, h1, h2]
    · have h2 : strEndsWith (snapStem ++ fmtId t ++ ".json") ".json" = true :=
        strEndsWith_append _ _
      simp [snapGuard, h1, h2]
  unfold recognizedId
  rw [if_pos hguard, hp]
  rfl

theorem recognizedId_csvNameOf {t : Timestamp} (hv : t.valid = true) :
    recognizedId (csvNameOf (fmtId t)) = some (fmtId t) :=
  recognizedId_canonical hv (Or.inl rfl)

theorem recognizedId_jsonNameOf {t : Timestamp} (hv : t.valid = true) :
    recognizedId (jsonNameOf (fmtId t)) = some (fmtId t) :=
  recognizedId_canonical hv (Or.inr rfl)

theorem noSlash_csvNameOf (t : Timestamp) : ('/' : Char) ∉ (csvNameOf (fmtId t)).data := by
  unfold csvNameOf
  rw [strData_append, strData_append]
  intro hm
  rcases List.mem_append.mp hm with h2 | h2
  · rcases List.mem_append.mp h2 with h3 | h3
    · exact absurd h3 (by decide)
    · rcases mem_fmtId_chars h3 with h4 | h4
      · exact absurd h4 (by decide)
      · exact (mem_decDigits_props h4).2.2.2 rfl
  · exact absurd h2 (by decide)

theorem noSlash_jsonNameOf (t : Timestamp) : ('/' : Char) ∉ (jsonNameOf (fmtId t)).data := by
  unfold jsonNameOf
  rw [strData_append, strData_append]
  intro hm
  rcases List.mem_append.mp hm with h2 | h2
  · rcases List.mem_append.mp h2 with h3 | h3
    · exact absurd h3 (by decide)
    · rcases mem_fmtId_chars h3 with h4 | h4
      · exact absurd h4 (by decide)
      · exact (mem_decDigits_props h4).2.2.2 rfl
  · exact absurd h2 (by decide)

theorem jsonNameOf_endsWith_json (i : String) : strEndsWith (jsonNameOf i) ".json" = true :=
  strEndsWith_append _ _

theorem endsWith_csv_not_json (x : String) : strEndsWith (x ++ ".csv") ".json" = false := by
  unfold strEndsWith
  rw [strData_append, List.reverse_append,
    show (".csv" : String).data.reverse = ['v','s','c','.'] from rfl,
    show (".json" : String).data.reverse = ['n','o','s','j','.'] from rfl]
  simp [List.isPrefixOf]

theorem csvNameOf_not_endsWith_json (i : String) :
    strEndsWith (csvNameOf i) ".json" = false :=
  endsWith_csv_not_json (snapStem ++ i)

theorem csvNameOf_ne_jsonNameOf (i j : String) : csvNameOf i ≠ jsonNameOf j := by
  intro h
  have h2 := congrArg (fun x => strEndsWith x ".json") h
  simp only [csvNameOf_not_endsWith_json, jsonNameOf_endsWith_json] at h2
  exact Bool.false_ne_true h2

theorem jsonNameOf_inj {i j : String} (h : jsonNameOf i = jsonNameOf j) : i = j := by
  have h2 := congrArg String.data h
  unfold jsonNameOf at h2
  rw [strData_append, strData_append, strData_append, strData_append,
    List.append_assoc, List.append_assoc] at h2
  have h3 := List.append_cancel_left h2
  exact strExt (List.append_cancel_right h3)

theorem mem_move_currentDir {fs : FS} {src nm f : String} :
    f ∈ (fs.moveToArchives src nm).currentDir ↔ f ∈ fs.currentDir ∧ currentPath f ≠ src := by
  show f ∈ fs.currentDir.filter (fun n => currentPath n ≠ src) ↔ _
  rw [List.mem_filter]
  simp

theorem mem_move_archivesDir {fs : FS} {src nm f : String} :
    f ∈ (fs.moveToArchives src nm).archivesDir ↔
      (f ∈ fs.archivesDir ∧ archivesPath f ≠ src) ∨ f = nm := by
  show f ∈ insertName nm (fs.archivesDir.filter (fun n => archivesPath n ≠ src)) ↔ _
  rw [mem_insertName_iff, List.mem_filter]
  simp

theorem move_content {fs : FS} {src nm p : String} (h1 : p ≠ archivesPath nm) (h2 : p ≠ src) :
    (fs.moveToArchives src nm).content p = fs.content p := by
  show (if p = archivesPath nm then _ else if p = src then Content.absent else fs.content p) = _
  rw [if_neg h1, if_neg h2]

/-! ## C6: the reachable-state invariant -/

/-- A directory entry is a well-formed snapshot content file of a
registered id. -/
def CanonName (I : List String) (f : String) : Prop :=
  ∃ t : Timestamp, t.valid = true ∧ fmtId t ∈ I ∧
    (f = csvNameOf (fmtId t) ∨ f = jsonNameOf (fmtId t))

/-- Directory-side invariant pieces: every file in the two data
directories is a canonical snapshot file of a registered id, and every
JSON file in `data/current` parses. -/
def DirsOk (I : List String) (fs : FS) : Prop :=
  (∀ f ∈ fs.currentDir ++ fs.archivesDir, CanonName I f) ∧
  (∀ f ∈ fs.currentDir, strEndsWith f ".json" = true →
    ∃ dta, fs.content (currentPath f) = Content.items dta)

/-- Entry-side invariant pieces: the JSON content file of the entry still
exists in one of the two data directories, the id comes from a real
timestamp, is registered, and both recorded paths point at the entry's
own content files in one of the two data directories. -/
def EntryOk (I : List String) (fs : FS) (e : DataFileEntry) : Prop :=
  (jsonNameOf e.id ∈ fs.currentDir ∨ jsonNameOf e.id ∈ fs.archivesDir) ∧
  (∃ t : Timestamp, t.valid = true ∧ e.id = fmtId t) ∧ e.id ∈ I ∧
  (e.file_paths.csv = currentPath (csvNameOf e.id) ∨
    e.file_paths.csv = archivesPath (csvNameOf e.id)) ∧
  (e.file_paths.json = currentPath (jsonNameOf e.id) ∨
    e.file_paths.json = archivesPath (jsonNameOf e.id))

/-- The whole reachable-state invariant. -/
def Inv (st : State) : Prop :=
  DirsOk (indexIds st.index) st.fs ∧
  ∀ e ∈ st.index.data_files, EntryOk (indexIds st.index) st.fs e

theorem Inv_init (now : Timestamp) : Inv (initState now) :=
  ⟨⟨fun f hf => absurd hf (by simp [initState, emptyFS]),
    fun f hf _ => absurd hf (by simp [initState, emptyFS])⟩,
   fun e he => absurd he (by simp [initState, createNewIndex])⟩

theorem EntryOk_mono_fs {I : List String} {fs fs2 : FS} {e : DataFileEntry}
    (hdir : ∀ g, g ∈ fs.currentDir ∨ g ∈ fs.archivesDir →
      g ∈ fs2.currentDir ∨ g ∈ fs2.archivesDir)
    (h : EntryOk I fs e) : EntryOk I fs2 e :=
  ⟨hdir _ h.1, h.2⟩

theorem Inv_frame {st st2 : State}
    (hcur : st2.fs.currentDir = st.fs.currentDir)
    (harch : st2.fs.archivesDir = st.fs.archivesDir)
    (hcontent : ∀ p, st2.fs.content p = st.fs.content p)
    (hids : indexIds st2.index = indexIds st.index)
    (hent : ∀ e2 ∈ st2.index.data_files, ∃ e ∈ st.index.data_files,
      e2.id = e.id ∧ e2.file_paths = e.file_paths)
    (h : Inv st) : Inv st2 := by
  obtain ⟨⟨hnames, hjson⟩, hents⟩ := h
  refine ⟨⟨?_, ?_⟩, ?_⟩
  · rw [hcur, harch, hids]
    exact hnames
  · intro f hf hej
    rw [hcontent]
    exact hjson f (hcur ▸ hf) hej
  · intro e2 he2
    obtain ⟨e, he, hid, hfp⟩ := hent e2 he2
    obtain ⟨hju, hts, hmem, hrec⟩ := hents e he
    exact ⟨by rw [hcur, harch, hid]; exact hju, by rw [hid]; exact hts,
      by rw [hids, hid]; exact hmem, by rw [hfp, hid]; exact hrec⟩

theorem Inv_registerPodcast (p sp ap : String) (d? : Option String) (now : Timestamp)
    (st : State) (h : Inv st) : Inv (registerPodcast p sp ap d? now st).2 :=
  @Inv_frame st _ rfl rfl (fun _p2 => rfl) rfl (fun e2 he2 => ⟨e2, he2, rfl, rfl⟩) h

theorem Inv_ext_analysis (folder name : String) (st : State) (h : Inv st) :
    Inv { st with fs := extAnalysisWrite folder name st.fs } := by
  refine @Inv_frame st _ ?_ ?_ (fun _p2 => ?_) rfl
    (fun e2 he2 => ⟨e2, he2, rfl, rfl⟩) h <;>
    · show _ = _
      unfold extAnalysisWrite
      split
      · rfl
      · split <;> rfl

theorem Inv_ext_podcast (w : Bool) (name : String) (st : State) (h : Inv st) :
    Inv { st with fs := extPodcastWrite w name st.fs } := by
  refine @Inv_frame st _ ?_ ?_ (fun p2 => ?_) rfl
    (fun e2 he2 => ⟨e2, he2, rfl, rfl⟩) h <;>
    · show _ = _
      unfold extPodcastWrite
      split <;> rfl

theorem registerAnalysisResult_some {i ty fp : String} {d? : Option String} {now : Timestamp}
    {st : State} {dfs : List DataFileEntry}
    (hu : updateFirst (fun e => e.id == i)
      (attachAnalysis ty (d?.getD (fmtDate now)) fp) st.index.data_files = some dfs) :
    (registerAnalysisResult i ty fp d? now st).2.index.data_files = dfs ∧
    (registerAnalysisResult i ty fp d? now st).2.fs.currentDir = st.fs.currentDir ∧
    (registerAnalysisResult i ty fp d? now st).2.fs.archivesDir = st.fs.archivesDir ∧
    (∀ p, (registerAnalysisResult i ty fp d? now st).2.fs.content p = st.fs.content p) := by
  simp only [registerAnalysisResult, hu]
  exact ⟨rfl, rfl, rfl, fun p => rfl⟩

theorem Inv_registerAnalysisResult (i ty fp : String) (d? : Option String) (now : Timestamp)
    (st : State) (h : Inv st) : Inv (registerAnalysisResult i ty fp d? now st).2 := by
  cases hu : updateFirst (fun e => e.id == i)
      (attachAnalysis ty (d?.getD (fmtDate now)) fp) st.index.data_files with
  | none =>
    have hr : registerAnalysisResult i ty fp d? now st = (false, st) := by
      simp only [registerAnalysisResult, hu]
    rw [hr]
    exact h
  | some dfs =>
    obtain ⟨hdf2, hcur, harch, hcontent⟩ := registerAnalysisResult_some hu
    obtain ⟨l₁, x, l₃, hdf, hx, hnone, hdfs⟩ := updateFirst_some_decomp hu
    refine @Inv_frame st _ hcur harch hcontent ?_ ?_ h
    · unfold indexIds
      rw [hdf2, hdfs, hdf]
      simp [attachAnalysis]
    · intro e2 he2
      rw [hdf2, hdfs] at he2
      rcases List.mem_append.mp he2 with h2 | h2
      · exact ⟨e2, by rw [hdf]; exact List.mem_append_left _ h2, rfl, rfl⟩
      · rcases List.mem_cons.mp h2 with rfl | h3
        · exact ⟨x, by rw [hdf]; simp, rfl, rfl⟩
        · exact ⟨e2, by rw [hdf]; simp [h3], rfl, rfl⟩

theorem demote_id (e : DataFileEntry) : (demote e).id = e.id := by
  unfold demote
  split <;> rfl

theorem demote_fp (e : DataFileEntry) : (demote e).file_paths = e.file_paths := by
  unfold demote
  split <;> rfl

theorem indexIds_saveCollectedData (data : List Item) (ts now : Timestamp) (st : State) :
    indexIds (saveCollectedData data ts now st).1.index = indexIds st.index ++ [fmtId ts] := by
  show (st.index.data_files.map demote ++ [mkSnapshotEntry data ts]).map (fun e => e.id) = _
  rw [List.map_append, List.map_map]
  simp [indexIds, mkSnapshotEntry, demote_id, Function.comp]

theorem Inv_saveCollectedData (data : List Item) (ts now : Timestamp) (hv : ts.valid = true)
    (st : State) (h : Inv st) : Inv (saveCollectedData data ts now st).1 := by
  obtain ⟨⟨hnames, hjson⟩, hents⟩ := h
  have hids := indexIds_saveCollectedData data ts now st
  have hcur2 : (saveCollectedData data ts now st).1.fs.currentDir =
      insertName (jsonNameOf (fmtId ts)) (insertName (csvNameOf (fmtId ts)) st.fs.currentDir) :=
    rfl
  have harch2 : (saveCollectedData data ts now st).1.fs.archivesDir = st.fs.archivesDir := rfl
  have hdf2 : (saveCollectedData data ts now st).1.index.data_files =
      st.index.data_files.map demote ++ [mkSnapshotEntry data ts] := rfl
  have hcont2 : ∀ p, (saveCollectedData data ts now st).1.fs.content p =
      if p = currentPath (jsonNameOf (fmtId ts)) then Content.items data
      else if p = currentPath (csvNameOf (fmtId ts)) then Content.invalid
      else st.fs.content p := fun p => rfl
  refine ⟨⟨?_, ?_⟩, ?_⟩
  · intro f hf
    rw [hcur2, harch2] at hf
    have hcanon : ∀ g, CanonName (indexIds st.index) g →
        CanonName (indexIds (saveCollectedData data ts now st).1.index) g := by
      rintro g ⟨t, h1, h2, h3⟩
      exact ⟨t, h1, by rw [hids]; exact List.mem_append_left _ h2, h3⟩
    rcases List.mem_append.mp hf with hf | hf
    · rcases mem_insertName_iff.mp hf with hf2 | rfl
      · rcases mem_insertName_iff.mp hf2 with hf3 | rfl
        · exact hcanon f (hnames f (List.mem_append_left _ hf3))
        · exact ⟨ts, hv, by rw [hids]; simp, Or.inl rfl⟩
      · exact ⟨ts, hv, by rw [hids]; simp, Or.inr rfl⟩
    · exact hcanon f (hnames f (List.mem_append_right _ hf))
  · intro f hf hej
    rw [hcur2] at hf
    rw [hcont2]
    by_cases hfj : currentPath f = currentPath (jsonNameOf (fmtId ts))
    · rw [if_pos hfj]
      exact ⟨data, rfl⟩
    · rw [if_neg hfj]
      by_cases hfc : currentPath f = currentPath (csvNameOf (fmtId ts))
      · exfalso
        rw [currentPath_inj hfc, csvNameOf_not_endsWith_json] at hej
        exact Bool.false_ne_true hej
      · rw [if_neg hfc]
        have hfcur : f ∈ st.fs.currentDir := by
          rcases mem_insertName_iff.mp hf with hf2 | rfl
          · rcases mem_insertName_iff.mp hf2 with hf3 | rfl
            · exact hf3
            · exact absurd rfl hfc
          · exact absurd rfl hfj
        exact hjson f hfcur hej
  · intro e2 he2
    rw [hdf2] at he2
    have hjmem : ∀ g, g ∈ st.fs.currentDir →
        g ∈ (saveCollectedData data ts now st).1.fs.currentDir := by
      intro g hg
      rw [hcur2]
      exact mem_insertName_iff.mpr (Or.inl (mem_insertName_iff.mpr (Or.inl hg)))
    rcases List.mem_append.mp he2 with h2 | h2
    · obtain ⟨e, he, rfl⟩ := List.mem_map.mp h2
      obtain ⟨hju, hts, hmem, hrec⟩ := hents e he
      refine ⟨?_, ?_, ?_, ?_⟩
      · rw [demote_id]
        rcases hju with hju | hju
        · exact Or.inl (hjmem _ hju)
        · exact Or.inr (harch2 ▸ hju)
      · rw [demote_id]
        exact hts
      · rw [demote_id, hids]
        exact List.mem_append_left _ hmem
      · rw [demote_id, demote_fp]
        exact hrec
    · rw [List.mem_singleton.mp h2]
      refine ⟨?_, ⟨ts, hv, rfl⟩, ?_, Or.inl rfl, Or.inl rfl⟩
      · show jsonNameOf (fmtId ts) ∈ _ ∨ jsonNameOf (fmtId ts) ∈ _
        rw [hcur2]
        exact Or.inl (mem_insertName_self _ _)
      · show fmtId ts ∈ _
        rw [hids]
        simp

/-- The state `archive_old_data` builds just before its final save
decision: the folded entry list and filesystem. -/
def archiveFoldState (th : String) (st : State) : State :=
  { index := { st.index with data_files :=
      (st.index.data_files.foldl (archiveEntry th) ([], st.fs, 0)).1 }
    fs := (st.index.data_files.foldl (archiveEntry th) ([], st.fs, 0)).2.1 }

theorem archiveFile_step {I : List String} {fs : FS} {n : Nat} {recorded nm : String}
    (hrec : recorded = currentPath nm ∨ recorded = archivesPath nm)
    (hns : ('/' : Char) ∉ nm.data)
    (hcn : CanonName I nm)
    (hdirs : DirsOk I fs) :
    ∃ fs2 n2 rec2,
      archiveFile (fs, n) recorded = ((fs2, n2), rec2) ∧
      (rec2 = currentPath nm ∨ rec2 = archivesPath nm) ∧
      DirsOk I fs2 ∧
      (∀ g, g ∈ fs.currentDir ∨ g ∈ fs.archivesDir →
        g ∈ fs2.currentDir ∨ g ∈ fs2.archivesDir) := by
  by_cases hpe : fs.pathExists recorded = true
  · have hbn : basename recorded = nm := by
      rcases hrec with rfl | rfl
      · exact basename_currentPath hns
      · exact basename_archivesPath hns
    refine ⟨fs.moveToArchives recorded nm, n + 1, archivesPath nm, ?_, Or.inr rfl, ⟨?_, ?_⟩, ?_⟩
    · rw [archiveFile, if_pos hpe, hbn]
    · intro f hf
      rcases List.mem_append.mp hf with hf | hf
      · exact hdirs.1 f (List.mem_append_left _ (mem_move_currentDir.mp hf).1)
      · rcases mem_move_archivesDir.mp hf with ⟨hfa, -⟩ | rfl
        · exact hdirs.1 f (List.mem_append_right _ hfa)
        · exact hcn
    · intro f hf hej
      obtain ⟨hfc, hfne⟩ := mem_move_currentDir.mp hf
      rw [move_content (currentPath_ne_archivesPath f nm) hfne]
      exact hdirs.2 f hfc hej
    · intro g hg
      by_cases hgnm : g = nm
      · exact Or.inr (mem_move_archivesDir.mpr (Or.inr hgnm))
      · rcases hg with hg | hg
        · by_cases hgs : currentPath g = recorded
          · exfalso
            rcases hrec with rfl | rfl
            · exact hgnm (currentPath_inj hgs)
            · exact currentPath_ne_podPath "weekly" g "" (by exact absurd hgs (by
                intro h2
                exact currentPath_ne_archivesPath g nm h2))
          · exact Or.inl (mem_move_currentDir.mpr ⟨hg, hgs⟩)
        · by_cases hgs : archivesPath g = recorded
          · exfalso
            rcases hrec with rfl | rfl
            · exact currentPath_ne_archivesPath nm g hgs.symm
            · exact hgnm (archivesPath_inj hgs)
          · exact Or.inr (mem_move_archivesDir.mpr (Or.inl ⟨hg, hgs⟩))
  · refine ⟨fs, n, recorded, ?_, hrec, hdirs, fun g hg => hg⟩
    rw [archiveFile, if_neg hpe]

theorem archiveEntry_step {I : List String} (th : String) {done todo : List DataFileEntry}
    {fs : FS} {n : Nat} {e : DataFileEntry}
    (hdirs : DirsOk I fs) (hents : ∀ x ∈ done ++ e :: todo, EntryOk I fs x) :
    ∃ e2 fs2 n2,
      archiveEntry th (done, fs, n) e = (done ++ [e2], fs2, n2) ∧ e2.id = e.id ∧
      DirsOk I fs2 ∧ (∀ x ∈ done ++ e2 :: todo, EntryOk I fs2 x) := by
  by_cases hcond : (e.status == "archived" && pyStrLt e.date th) = true
  · obtain ⟨hju, ⟨t, hv, hid⟩, hmem, hcsv, hjson⟩ := hents e (by simp)
    have hnsc : ('/' : Char) ∉ (csvNameOf e.id).data := by
      rw [hid]
      exact noSlash_csvNameOf t
    have hnsj : ('/' : Char) ∉ (jsonNameOf e.id).data := by
      rw [hid]
      exact noSlash_jsonNameOf t
    have hcnc : CanonName I (csvNameOf e.id) := ⟨t, hv, hid ▸ hmem, Or.inl (by rw [hid])⟩
    have hcnj : CanonName I (jsonNameOf e.id) := ⟨t, hv, hid ▸ hmem, Or.inr (by rw [hid])⟩
    obtain ⟨fs2, n2, rec2, hf1, hrec2, hdirs2, hmono2⟩ :=
      archiveFile_step (n := n) hcsv hnsc hcnc hdirs
    obtain ⟨fs3, n3, rec3, hf2, hrec3, hdirs3, hmono3⟩ :=
      archiveFile_step (n := n2) hjson hnsj hcnj hdirs2
    refine ⟨{ e with file_paths := { csv := rec2, json := rec3 } }, fs3, n3, ?_, rfl,
      hdirs3, ?_⟩
    · simp [archiveEntry, hcond, hf1, hf2]
    · intro x hx
      rcases List.mem_append.mp hx with hx | hx
      · exact EntryOk_mono_fs hmono3 (EntryOk_mono_fs hmono2 (hents x (List.mem_append_left _ hx)))
      · rcases List.mem_cons.mp hx with rfl | hx2
        · exact ⟨hmono3 _ (hmono2 _ hju), ⟨t, hv, hid⟩, hmem, hrec2, hrec3⟩
        · exact EntryOk_mono_fs hmono3 (EntryOk_mono_fs hmono2 (hents x (by simp [hx2])))
  · exact ⟨e, fs, n, by simp [archiveEntry, hcond], rfl, hdirs, fun x hx => hents x hx⟩

theorem archive_fold_inv {I : List String} (th : String) :
    ∀ (todo done : List DataFileEntry) (fs : FS) (n : Nat),
      DirsOk I fs → (∀ x ∈ done ++ todo, EntryOk I fs x) →
      DirsOk I (todo.foldl (archiveEntry th) (done, fs, n)).2.1 ∧
      (∀ x ∈ (todo.foldl (archiveEntry th) (done, fs, n)).1,
        EntryOk I (todo.foldl (archiveEntry th) (done, fs, n)).2.1 x) := by
  intro todo
  induction todo with
  | nil =>
    intro done fs n hd he
    exact ⟨hd, fun x hx => he x (by simpa using hx)⟩
  | cons e todo ih =>
    intro done fs n hd he
    obtain ⟨e2, fs2, n2, hstep, hid2, hdirs2, hents2⟩ := archiveEntry_step th hd he
    rw [List.foldl_cons, hstep]
    exact ih (done ++ [e2]) fs2 n2 hdirs2 (fun x hx => hents2 x (by simpa using hx))

theorem archiveEntry_fold_ids (th : String) (l : List DataFileEntry)
    (acc : List DataFileEntry × FS × Nat) :
    ((l.foldl (archiveEntry th) acc).1.map (fun e => e.id)) =
      acc.1.map (fun e => e.id) ++ l.map (fun e => e.id) := by
  induction l generalizing acc with
  | nil => simp
  | cons x xs ih =>
    rw [List.foldl_cons, ih]
    by_cases h : (x.status == "archived" && pyStrLt x.date th) = true
    · simp only [archiveEntry, if_pos h]
      simp
    · simp only [archiveEntry, if_neg h]
      simp

theorem Inv_archiveOldData (th : String) (now : Timestamp) (st : State) (h : Inv st) :
    Inv (archiveOldData th now st).1 := by
  obtain ⟨hdirs, hents⟩ := h
  obtain ⟨hd2, he2⟩ := archive_fold_inv th st.index.data_files [] st.fs 0 hdirs
    (fun x hx => hents x (by simpa using hx))
  have hids2 := archiveEntry_fold_ids th st.index.data_files ([], st.fs, 0)
  have hcase : ∀ gl : State → Prop,
      gl (saveIndex now (archiveFoldState th st)) →
      gl (archiveFoldState th st) →
      gl (archiveOldData th now st).1 := by
    intro gl h1 h2
    by_cases hn : (st.index.data_files.foldl (archiveEntry th) ([], st.fs, 0)).2.2 > 0
    · simpa only [archiveOldData, archiveFoldState, if_pos hn] using h1
    · simpa only [archiveOldData, archiveFoldState, if_neg hn] using h2
  have hdf : (archiveOldData th now st).1.index.data_files =
      (st.index.data_files.foldl (archiveEntry th) ([], st.fs, 0)).1 :=
    hcase (fun s2 => s2.index.data_files =
      (st.index.data_files.foldl (archiveEntry th) ([], st.fs, 0)).1) rfl rfl
  have hfs_cur : (archiveOldData th now st).1.fs.currentDir =
      (st.index.data_files.foldl (archiveEntry th) ([], st.fs, 0)).2.1.currentDir :=
    hcase (fun s2 => s2.fs.currentDir =
      (st.index.data_files.foldl (archiveEntry th) ([], st.fs, 0)).2.1.currentDir) rfl rfl
  have hfs_arch : (archiveOldData th now st).1.fs.archivesDir =
      (st.index.data_files.foldl (archiveEntry th) ([], st.fs, 0)).2.1.archivesDir :=
    hcase (fun s2 => s2.fs.archivesDir =
      (st.index.data_files.foldl (archiveEntry th) ([], st.fs, 0)).2.1.archivesDir) rfl rfl
  have hfs_cont : ∀ p, (archiveOldData th now st).1.fs.content p =
      (st.index.data_files.foldl (archiveEntry th) ([], st.fs, 0)).2.1.content p :=
    fun p => hcase (fun s2 => s2.fs.content p =
      (st.index.data_files.foldl (archiveEntry th) ([], st.fs, 0)).2.1.content p) rfl rfl
  have hI : indexIds (archiveOldData th now st).1.index = indexIds st.index := by
    unfold indexIds
    rw [hdf, hids2]
    simp
  refine ⟨⟨?_, ?_⟩, ?_⟩
  · intro f hf
    rw [hfs_cur, hfs_arch] at hf
    rw [hI]
    exact hd2.1 f hf
  · intro f hf hej
    rw [hfs_cont]
    exact hd2.2 f (hfs_cur ▸ hf) hej
  · intro e2 hee
    rw [hdf] at hee
    obtain ⟨hju, hts, hmem, hrec⟩ := he2 e2 hee
    exact ⟨by rw [hfs_cur, hfs_arch]; exact hju, hts, by rw [hI]; exact hmem, hrec⟩

theorem Inv_runOps (ops : List Op) (now : Timestamp) (hwf : ops.all Op.wf = true) :
    Inv (runOps ops (initState now)) := by
  suffices hgen : ∀ (l : List Op) (st : State), l.all Op.wf = true → Inv st →
      Inv (runOps l st) from hgen ops _ hwf (Inv_init now)
  intro l
  induction l with
  | nil => exact fun st _ h => h
  | cons op l ih =>
    intro st hwf2 h
    rw [List.all_cons, Bool.and_eq_true] at hwf2
    rw [runOps, List.foldl_cons]
    refine ih _ hwf2.2 ?_
    cases op with
    | snap data ts nw => exact Inv_saveCollectedData data ts nw (by simpa [Op.wf] using hwf2.1) st h
    | analysis i ty fp d nw => exact Inv_registerAnalysisResult i ty fp d nw st h
    | podcast p sp ap d nw => exact Inv_registerPodcast p sp ap d nw st h
    | archiveOp t2 nw => exact Inv_archiveOldData t2 nw st h
    | extAnalysisFile folder name => exact Inv_ext_analysis folder name st h
    | extPodcastFile w name => exact Inv_ext_podcast w name st h

/-! ## C6: what each rebuild step does to the id list -/

theorem archReassign_id (fn : String) (e : DataFileEntry) : (archReassign fn e).id = e.id := by
  unfold archReassign
  split
  · rfl
  · split <;> rfl

theorem any_id_eq (acc : List DataFileEntry) (i : String) :
    (acc.any fun e => e.id == i) = true ↔ i ∈ acc.map (fun e => e.id) := by
  simp only [List.any_eq_true, List.mem_map, beq_iff_eq]

theorem mem_ids_append (acc : List DataFileEntry) (entry : DataFileEntry) (i : String) :
    i ∈ (acc ++ [entry]).map (fun e => e.id) ↔
      i ∈ acc.map (fun e => e.id) ∨ i = entry.id := by
  simp

theorem updateFirst_getD_map {α β : Type} {p : α → Bool} {f : α → α} {g : α → β}
    (hg : ∀ x, g (f x) = g x) (l : List α) :
    ((updateFirst p f l).getD l).map g = l.map g := by
  cases hu : updateFirst p f l with
  | none => rfl
  | some l2 => simpa using updateFirst_map hg hu

theorem rebuildAnalysisFile_ids (folder : String) (acc : List DataFileEntry × AnalysisMetrics)
    (filename : String) :
    (rebuildAnalysisFile folder acc filename).1.map (fun e => e.id) =
      acc.1.map (fun e => e.id) := by
  unfold rebuildAnalysisFile
  split
  · cases maxByIdEntry acc.1 with
    | none => rfl
    | some latest =>
        exact updateFirst_getD_map (f := attachAnalysisEntry _ _ _)
          (g := fun e : DataFileEntry => e.id) (fun x => rfl) acc.1
  · rfl

theorem rebuildAnalysisFold_ids (folder : String) (files : List String) :
    ∀ acc : List DataFileEntry × AnalysisMetrics,
      (files.foldl (rebuildAnalysisFile folder) acc).1.map (fun e => e.id) =
        acc.1.map (fun e => e.id) := by
  induction files with
  | nil => intro acc; rfl
  | cons f files ih =>
    intro acc
    rw [List.foldl_cons, ih, rebuildAnalysisFile_ids]


/-! ## C6: membership in the id list rebuilt by steps 1 and 2 -/

theorem rebuildCurrentFile_mem {fs : FS}
    (hjson : ∀ f ∈ fs.currentDir, strEndsWith f ".json" = true →
      ∃ dta, fs.content (currentPath f) = Content.items dta)
    (acc : List DataFileEntry) (f : String) (i : String) :
    i ∈ (rebuildCurrentFile fs acc f).map (fun e => e.id) ↔
      i ∈ acc.map (fun e => e.id) ∨ recognizedId f = some i := by
  by_cases hg : snapGuard f = true
  · cases hp : parseSnapName f with
    | none => simp [rebuildCurrentFile, recognizedId, hg, hp]
    | some x =>
      obtain ⟨fid, fdate, ftime⟩ := x
      have hrec : recognizedId f = some fid := by
        simp [recognizedId, hg, hp]
      rw [hrec]
      by_cases hin : (acc.any fun e => e.id == fid) = true
      · have hmem := (any_id_eq acc fid).mp hin
        simp only [rebuildCurrentFile, if_pos hg, hp, if_pos hin]
        constructor
        · exact Or.inl
        · rintro (h | h)
          · exact h
          · exact (Option.some.inj h) ▸ hmem
      · simp only [rebuildCurrentFile, if_pos hg, hp, if_neg hin]
        split
        · rename_i heq
          exfalso
          by_cases hex : fs.pathExists (currentPath (jsonNameOf fid)) = true
          · have hmem2 : jsonNameOf fid ∈ fs.currentDir := by
              rw [pathExists_currentPath] at hex
              exact contains_iff_mem.mp hex
            obtain ⟨dta, hc⟩ := hjson _ hmem2 (jsonNameOf_endsWith_json fid)
            rw [if_pos hex, hc] at heq
            simp at heq
          · rw [if_neg hex] at heq
            simp at heq
        · simp only [List.map_append, List.map_cons, List.map_nil, List.mem_append,
            List.mem_singleton, Option.some.injEq]
          exact or_congr Iff.rfl eq_comm
  · simp [rebuildCurrentFile, recognizedId, hg]

theorem rebuildArchiveFile_mem (acc : List DataFileEntry) (f : String) (i : String) :
    i ∈ (rebuildArchiveFile acc f).map (fun e => e.id) ↔
      i ∈ acc.map (fun e => e.id) ∨ recognizedId f = some i := by
  by_cases hg : snapGuard f = true
  · cases hp : parseSnapName f with
    | none => simp [rebuildArchiveFile, recognizedId, hg, hp]
    | some x =>
      obtain ⟨fid, fdate, ftime⟩ := x
      have hrec : recognizedId f = some fid := by
        simp [recognizedId, hg, hp]
      rw [hrec]
      simp only [rebuildArchiveFile, if_pos hg, hp]
      split
      · rename_i acc2 heq
        have hids : acc2.map (fun e => e.id) = acc.map (fun e => e.id) :=
          updateFirst_map (fun x => archReassign_id f x) heq
        have hsome : (updateFirst (fun e => e.id == fid) (archReassign f) acc).isSome = true := by
          rw [heq]; rfl
        obtain ⟨x, hx, he⟩ := updateFirst_isSome_iff.mp hsome
        have hfid : fid ∈ acc.map (fun e => e.id) :=
          List.mem_map.mpr ⟨x, hx, beq_iff_eq.mp he⟩
        rw [hids]
        constructor
        · exact Or.inl
        · rintro (h | h)
          · exact h
          · exact (Option.some.inj h) ▸ hfid
      · simp only [List.map_append, List.map_cons, List.map_nil, List.mem_append,
          List.mem_singleton, Option.some.injEq]
        exact or_congr Iff.rfl eq_comm
  · simp [rebuildArchiveFile, recognizedId, hg]

theorem rebuildCurrent_fold_mem {fs : FS}
    (hjson : ∀ f ∈ fs.currentDir, strEndsWith f ".json" = true →
      ∃ dta, fs.content (currentPath f) = Content.items dta)
    (l : List String) (i : String) :
    ∀ acc : List DataFileEntry,
      i ∈ (l.foldl (rebuildCurrentFile fs) acc).map (fun e => e.id) ↔
        i ∈ acc.map (fun e => e.id) ∨ ∃ f ∈ l, recognizedId f = some i := by
  induction l with
  | nil => intro acc; simp
  | cons f l ih =>
    intro acc
    rw [List.foldl_cons, ih, rebuildCurrentFile_mem hjson]
    constructor
    · rintro ((h | h) | ⟨g, hg2, hr⟩)
      · exact Or.inl h
      · exact Or.inr ⟨f, List.mem_cons_self f l, h⟩
      · exact Or.inr ⟨g, List.mem_cons_of_mem f hg2, hr⟩
    · rintro (h | ⟨g, hg2, hr⟩)
      · exact Or.inl (Or.inl h)
      · rcases List.mem_cons.mp hg2 with h3 | h3
        · exact Or.inl (Or.inr (h3 ▸ hr))
        · exact Or.inr ⟨g, h3, hr⟩

theorem rebuildArchive_fold_mem (l : List String) (i : String) :
    ∀ acc : List DataFileEntry,
      i ∈ (l.foldl rebuildArchiveFile acc).map (fun e => e.id) ↔
        i ∈ acc.map (fun e => e.id) ∨ ∃ f ∈ l, recognizedId f = some i := by
  induction l with
  | nil => intro acc; simp
  | cons f l ih =>
    intro acc
    rw [List.foldl_cons, ih, rebuildArchiveFile_mem]
    constructor
    · rintro ((h | h) | ⟨g, hg2, hr⟩)
      · exact Or.inl h
      · exact Or.inr ⟨f, List.mem_cons_self f l, h⟩
      · exact Or.inr ⟨g, List.mem_cons_of_mem f hg2, hr⟩
    · rintro (h | ⟨g, hg2, hr⟩)
      · exact Or.inl (Or.inl h)
      · rcases List.mem_cons.mp hg2 with h3 | h3
        · exact Or.inl (Or.inr (h3 ▸ hr))
        · exact Or.inr ⟨g, h3, hr⟩

/-- C6: after any sequence of normal operations from the empty document,
`rebuild_index` recovers exactly the recorded snapshot ids: an id is in
the rebuilt index's `data_files` iff it was in the index before the
rebuild. -/
theorem rebuild_preserves_snapshot_ids (ops : List Op) (hwf : ops.all Op.wf = true)
    (now0 now1 : Timestamp) (i : String) :
    i ∈ indexIds ((rebuildIndex now1 (runOps ops (initState now0))).1.index) ↔
      i ∈ indexIds ((runOps ops (initState now0)).index) := by
  obtain ⟨⟨hnames, hjson⟩, hents⟩ := Inv_runOps ops now0 hwf
  have h0 : indexIds ((rebuildIndex now1 (runOps ops (initState now0))).1.index) =
      ((runOps ops (initState now0)).fs.archivesDir.foldl rebuildArchiveFile
        ((runOps ops (initState now0)).fs.currentDir.foldl
          (rebuildCurrentFile (runOps ops (initState now0)).fs) [])).map (fun e => e.id) := by
    simp only [rebuildIndex, indexIds, saveIndex, rebuildAnalysisFold_ids]
  rw [h0, rebuildArchive_fold_mem, rebuildCurrent_fold_mem hjson]
  simp only [List.map_nil, List.not_mem_nil, false_or]
  constructor
  · rintro (⟨f, hf, hr⟩ | ⟨f, hf, hr⟩)
    · obtain ⟨t, hv, hinI, hform⟩ := hnames f (List.mem_append.mpr (Or.inl hf))
      have h2 : recognizedId f = some (fmtId t) := by
        rcases hform with h3 | h3
        · rw [h3]; exact recognizedId_csvNameOf hv
        · rw [h3]; exact recognizedId_jsonNameOf hv
      rw [h2] at hr
      exact (Option.some.inj hr) ▸ hinI
    · obtain ⟨t, hv, hinI, hform⟩ := hnames f (List.mem_append.mpr (Or.inr hf))
      have h2 : recognizedId f = some (fmtId t) := by
        rcases hform with h3 | h3
        · rw [h3]; exact recognizedId_csvNameOf hv
        · rw [h3]; exact recognizedId_jsonNameOf hv
      rw [h2] at hr
      exact (Option.some.inj hr) ▸ hinI
  · intro hmem
    obtain ⟨e, he, hid⟩ := List.mem_map.mp hmem
    obtain ⟨hjmem, ⟨t, hv, hidt⟩, hinI, hcsv, hjn⟩ := hents e he
    have hrec : recognizedId (jsonNameOf e.id) = some i := by
      rw [hidt, recognizedId_jsonNameOf hv, ← hidt, hid]
    rcases hjmem with h2 | h2
    · exact Or.inl ⟨jsonNameOf e.id, h2, hrec⟩
    · exact Or.inr ⟨jsonNameOf e.id, h2, hrec⟩

theorem rebuild_preserves_snapshot_ids_witness :
    ([Op.snap [] cTs1 cNow].all Op.wf = true) ∧
      (fmtId cTs1 ∈ indexIds ((rebuildIndex cNow
          (runOps [Op.snap [] cTs1 cNow] (initState cNow))).1.index) ↔
        fmtId cTs1 ∈ indexIds ((runOps [Op.snap [] cTs1 cNow] (initState cNow)).index)) :=
  ⟨by decide,
   rebuild_preserves_snapshot_ids [Op.snap [] cTs1 cNow] (by decide) cNow cNow (fmtId cTs1)⟩

end FM
